import Mathlib

/-!
A verification development for the `geco_stat` package: a shallow embedding
of its time-interval-set algebra (`geco_stat/Time.py`), its aggregate
primitives `Histogram` and `Statistics` (`geco_stat/Data.py`), the `Report`
bundle (`geco_stat/Report.py`) and the `ReportSet` composite
(`geco_stat/ReportSet.py`), together with theorems settling the stated
properties of these components.

Modelling conventions:
 - Interval endpoints are `float64` in the source.  The interval algebra
   performs no arithmetic on endpoints (only comparisons, copies, and -- for
   frame rounding -- exact division by the power of two 64), so endpoints are
   embedded as exact rationals `ℚ`; every comparison agrees with the `float64`
   comparison on representable values.
 - `numpy.int64` counters are embedded as `ℤ` (no claim exercises wraparound),
   bit rates (array lengths) as `ℕ`.
 - A `TimeIntervalSet`'s `_data` ndarray is a `List ℚ`.
 - Methods that raise exceptions are embedded in `Except String`, carrying the
   source's message.
 - `bisect.bisect_left l a` (resp. `bisect_right l b`) on a sorted array
   equals the number of elements `< a` (resp. `≤ b`), which is how the two
   searches are embedded.
-/

deriving instance DecidableEq for Except

namespace GecoStat

/-- `TimeIntervalSet._data`: the flat, even-length, sorted endpoint array
`[s1, e1, s2, e2, ...]` standing for `[s1,e1) ∪ [s2,e2) ∪ ...`. -/
abbrev TIS := List ℚ

/-- `bisect.bisect_left(self.to_ndarray(), a)` from
`TimeIntervalSet.__left_and_right_bounds__` (Time.py): on a sorted array this
is the count of elements strictly below `a`. -/
def bisect_left (l : TIS) (a : ℚ) : ℕ := l.countP (fun x => x < a)

/-- `bisect.bisect_right(self.to_ndarray(), b)` from
`TimeIntervalSet.__left_and_right_bounds__` (Time.py): on a sorted array this
is the count of elements at or below `b`.  The source stores
`r = bisect_right(...) - 1` as the rightmost bound; we keep the undecremented
count and account for the `-1` (with Python's `(-1) % 2 = 1`) in the parity
tests and slice indices of the callers. -/
def bisect_right (l : TIS) (b : ℚ) : ℕ := l.countP (fun x => x ≤ b)

/-- Python slice `l[i:j]`. -/
def slice (l : TIS) (i j : ℕ) : TIS := (l.take j).drop i

/-- `TimeIntervalSet.remove_empty_sets` (Time.py): repeatedly delete adjacent
equal endpoints pairwise.  The Python `while` loop deletes `l[i:i+2]` when
`l[i] == l[i+1]` and keeps `i` in place, otherwise advances `i`; on a list
that is exactly this recursion. -/
def remove_empty_sets : TIS → TIS
  | x :: y :: rest => if x = y then remove_empty_sets rest
                      else x :: remove_empty_sets (y :: rest)
  | l => l

/-- The body of one iteration of `TimeIntervalSet.__union__`'s loop (Time.py
lines 101-115): splice the interval `[a, b)` into the accumulated endpoint
list `S`.  `left = bnds[0] % 2` and `right = bnds[1] % 2` in the source;
since `bnds[1] = bisect_right - 1`, the source's `right == 1` is `br` even
and `right == 0` is `br` odd, and the slice `S[bnds[1]+1:]` is `S.drop br`. -/
def splice_union (S : TIS) (a b : ℚ) : TIS :=
  let bl := bisect_left S a
  let br := bisect_right S b
  if bl % 2 = 0 then
    if br % 2 = 0 then S.take bl ++ [a, b] ++ S.drop br   -- left==0, right==1
    else S.take bl ++ [a] ++ S.drop br                    -- left==0, right==0
  else
    if br % 2 = 0 then S.take bl ++ [b] ++ S.drop br      -- left==1, right==1
    else S.take bl ++ S.drop br                           -- left==1, right==0

/-- The loop of `TimeIntervalSet.__union__`: iteratively union every interval
of the other set into the accumulated result, collapsing degenerate pairs
after each splice. -/
def union_loop : TIS → TIS → TIS
  | S, a :: b :: rest => union_loop (remove_empty_sets (splice_union S a b)) rest
  | S, _ => S

/-- `TimeIntervalSet.__clone__` (Time.py): re-run the constructor on the
instance's own data, which re-applies `remove_empty_sets`. -/
def tis_clone (l : TIS) : TIS := remove_empty_sets l

/-- `TimeIntervalSet.__union__` (Time.py): the two empty short-circuits return
clones; otherwise the splice loop runs.  (`union` additionally asserts
self-consistency of both operands and version/type compatibility first;
those checks are the `Valid` hypotheses of the theorems below.) -/
def tis_union (self other : TIS) : TIS :=
  if other.length = 0 then tis_clone self
  else if self.length = 0 then tis_clone other
  else union_loop self other

/-- One iteration's appended payload in `TimeIntervalSet.intersection`
(Time.py lines 290-303); bounds are searched in `self`, written `S` here,
for the interval `[a, b)` of the other operand.  `S[bnds[0]:bnds[1]+1]`
is `slice S bl br`. -/
def inter_piece (S : TIS) (a b : ℚ) : TIS :=
  let bl := bisect_left S a
  let br := bisect_right S b
  if bl % 2 = 0 then
    if br % 2 = 0 then slice S bl br                      -- left==0, right==1
    else slice S bl br ++ [b]                             -- left==0, right==0
  else
    if br % 2 = 0 then [a] ++ slice S bl br               -- left==1, right==1
    else [a] ++ slice S bl br ++ [b]                      -- left==1, right==0

/-- The loop of `TimeIntervalSet.intersection`: the result starts empty and
accumulates one spliced piece per interval of the other operand, collapsing
degenerate pairs after each append. -/
def inter_loop (S : TIS) : TIS → TIS → TIS
  | acc, a :: b :: rest => inter_loop S (remove_empty_sets (acc ++ inter_piece S a b)) rest
  | acc, _ => acc

/-- `TimeIntervalSet.intersection` (Time.py).  The two self-consistency
asserts are preconditions (the `Valid` hypotheses of the theorems below). -/
def intersection (self other : TIS) : TIS :=
  if other.length = 0 ∨ self.length = 0 then []
  else inter_loop self [] other

/-- One iteration's appended payload in
`TimeIntervalSet.complement_with_respect_to` (Time.py lines 333-346);
bounds are searched in `self` (the subset), written `S`, for the interval
`[a, b)` of the other operand (the superset). -/
def comp_piece (S : TIS) (a b : ℚ) : TIS :=
  let bl := bisect_left S a
  let br := bisect_right S b
  if bl % 2 = 0 then
    if br % 2 = 0 then [a] ++ slice S bl br ++ [b]        -- left==0, right==1
    else [a] ++ slice S bl br                             -- left==0, right==0
  else
    if br % 2 = 0 then slice S bl br ++ [b]               -- left==1, right==1
    else slice S bl br                                    -- left==1, right==0

/-- The loop of `TimeIntervalSet.complement_with_respect_to`. -/
def comp_loop (S : TIS) : TIS → TIS → TIS
  | acc, a :: b :: rest => comp_loop S (remove_empty_sets (acc ++ comp_piece S a b)) rest
  | acc, _ => acc

/-- `TimeIntervalSet.complement_with_respect_to` (Time.py): raises unless
`self.union(other) == other`; an empty `self` returns `other` itself;
otherwise the splice loop runs. -/
def complement_with_respect_to (self other : TIS) : Except String TIS :=
  if tis_union self other ≠ other then
    .error "Can only take complement with respect to a superset."
  else if self.length = 0 then .ok other
  else .ok (comp_loop self [] other)

/-- `TimeIntervalSet.__sub__` (Time.py): `a - b = b.complement_with_respect_to(a)`. -/
def tis_sub (a b : TIS) : Except String TIS := complement_with_respect_to b a

/-- `TimeIntervalSet.__find_frame_file_gps_start_time__` (Time.py):
`np.floor(gps_time / 64.) * 64`, exact on our rationals. -/
def find_frame_file_gps_start_time (t : ℚ) : ℚ := 64 * ⌊t / 64⌋

/-- `TimeIntervalSet.__find_frame_file_gps_end_time__` (Time.py):
`np.ceil(gps_time / 64.) * 64`, exact on our rationals. -/
def find_frame_file_gps_end_time (t : ℚ) : ℚ := 64 * ⌈t / 64⌉

/-- The loop of `TimeIntervalSet.round_to_frame_times` (Time.py):
`rounded_times += cls([round-down(start), round-up(end)])` per interval; the
inner constructor call applies `remove_empty_sets` to the two-element list
and `+=` is union. -/
def rtf_loop : TIS → TIS → TIS
  | acc, s :: e :: rest =>
      rtf_loop (tis_union acc (remove_empty_sets
        [find_frame_file_gps_start_time s, find_frame_file_gps_end_time e])) rest
  | acc, _ => acc

/-- `TimeIntervalSet.round_to_frame_times` (Time.py). -/
def round_to_frame_times (l : TIS) : TIS := rtf_loop [] l

/-- The constructor `TimeIntervalSet.__init__` on an explicit endpoint list
(Time.py lines 58-67): reject odd length, reject unsorted data, then collapse
degenerate pairs.  (`sorted(intervalSet) == intervalSet` is non-strict
sortedness, i.e. `Chain' (· ≤ ·)`.) -/
def tis_init (l : List ℚ) : Except String TIS :=
  if l.length % 2 ≠ 0 then
    .error "intervalSet set must have even length (equal starts and ends)"
  else if ¬ l.Chain' (· ≤ ·) then .error "intervalSet must be sorted"
  else .ok (remove_empty_sets l)

/-- The membership semantics of an endpoint list, straight from the class
docstring `[t1,t2) U [t3,t4) U ...` (Time.py): `t` lies in the represented
set of half-open intervals. -/
def inSet : TIS → ℚ → Bool
  | s :: e :: rest, t => (decide (s ≤ t) && decide (t < e)) || inSet rest t
  | _, _ => false

/-- Count of endpoints at or below `t`; the parity of this count decides
membership for a valid endpoint list. -/
def cnt (l : TIS) (t : ℚ) : ℕ := l.countP (fun x => x ≤ t)

/-- Parity-of-count membership test (equal to `inSet` on valid lists). -/
abbrev covers (l : TIS) (t : ℚ) : Prop := cnt l t % 2 = 1

/-- The representation invariant of `TimeIntervalSet` (`_assert_self_consistent`
plus the guarantee added by `remove_empty_sets`): strictly increasing
endpoints, even count. -/
def Valid (l : TIS) : Prop := l.Pairwise (· < ·) ∧ l.length % 2 = 0

instance : DecidablePred Valid := fun l =>
  inferInstanceAs (Decidable (l.Pairwise (· < ·) ∧ l.length % 2 = 0))

/-- Multiples of the frame-file alignment unit 64. -/
def is64 (x : ℚ) : Prop := ∃ k : ℤ, x = 64 * k

/-- Membership in the union of the per-interval rounded pieces
`[round-down(start), round-up(end))`. -/
def roundedMemb : TIS → ℚ → Prop
  | s :: e :: rest, t =>
      (find_frame_file_gps_start_time s ≤ t ∧
        t < find_frame_file_gps_end_time e) ∨ roundedMemb rest t
  | _, _ => False

/-! ## Aggregate primitives (`geco_stat/Data.py`)

The version tag is a string compared only for equality; the value of
`geco_stat.__version__` itself (`geco_stat/_version.py`, not part of the
core sources) is immaterial. -/

def geco_version : String := "0.2"

/-- `__default_bitrate__` from `geco_stat._constants` (16384 per the
`AbstReport` docstring). -/
def default_bitrate : ℕ := 16384

/-- `np.finfo(np.float64).max`, exactly: `(2 - 2⁻⁵²)·2¹⁰²³ = 2¹⁰²⁴ - 2⁹⁷¹`,
written as an integer literal (see `float64_max_eq_pow`). -/
def float64_max : ℚ := 179769313486231570814527423731704356798070567525844996598917476803157260780028538760589558632766878171540458953514382464234321326889464182768467546703537516986049910576551282076245490090389328944075868508455133942304583236903222948165808559332123348274797826204144723168738177180919299881250404026184124858368

/-- `np.finfo(np.float64).min`, exactly. -/
def float64_min : ℚ := -float64_max

/-- `Statistics` (Data.py): per-offset running sum, sum of squares, max and
min accumulators (`float64` vectors of length `bitrate`), a sample count and
the bitrate.  The version tag is the class attribute `__version__` recorded
with the instance. -/
structure Statistics where
  sum : List ℚ
  sum_sq : List ℚ
  max : List ℚ
  min : List ℚ
  num : ℤ
  bitrate : ℕ
  version : String
deriving DecidableEq

/-- `Statistics.__init__` with all data arguments left at their defaults
(Data.py lines 182-216): zero sums and count, max vector filled with the
smallest representable `float64` (source comment: "lowest possible max,
cannot survive"), min vector with the largest. -/
def Statistics.init_default (bitrate : ℕ) : Statistics where
  sum := List.replicate bitrate 0
  sum_sq := List.replicate bitrate 0
  max := List.replicate bitrate float64_min
  min := List.replicate bitrate float64_max
  num := 0
  bitrate := bitrate
  version := geco_version

/-- `Statistics.assert_self_consistent` (Data.py): shape asserts, then the
version check.  (The integrality asserts on `num` and `bitrate` hold by
typing in the model.) -/
def Statistics.assert_self_consistent (s : Statistics) : Except String Unit :=
  if s.sum.length ≠ s.bitrate then
    .error "sum should be vector with length equal to bitrate"
  else if s.sum_sq.length ≠ s.bitrate then
    .error "sum_sq should be vector with length equal to bitrate"
  else if s.max.length ≠ s.bitrate then
    .error "max should be vector with length equal to bitrate"
  else if s.min.length ≠ s.bitrate then
    .error "min should be vector with length equal to bitrate"
  else if s.version ≠ geco_version then
    .error "Statistics version does not match lib version"
  else .ok ()

/-- `Statistics.assert_unionable` (Data.py).  The `isinstance` check is
vacuous in the model (both operands have type `Statistics`). -/
def Statistics.assert_unionable (s o : Statistics) : Except String Unit :=
  if s.bitrate ≠ o.bitrate then .error "Statistics have different bitrates"
  else if s.version ≠ o.version then
    .error "Statistics have different versions"
  else .ok ()

/-- `Statistics.__union__` (Data.py lines 218-229): element-wise `numpy`
addition of ALL five accumulators -- including `max` and `min` -- starting
from a clone of `self`. -/
def Statistics.union_raw (s o : Statistics) : Statistics :=
  { s with
    sum := List.zipWith (· + ·) s.sum o.sum
    sum_sq := List.zipWith (· + ·) s.sum_sq o.sum_sq
    max := List.zipWith (· + ·) s.max o.max
    min := List.zipWith (· + ·) s.min o.min
    num := s.num + o.num }

/-- `AbstUnionable.union` specialized to `Statistics` (Abstract.py lines
181-190): consistency of both operands, unionability, then `__union__`. -/
def Statistics.union (s o : Statistics) : Except String Statistics :=
  match s.assert_self_consistent with
  | .error e => .error e
  | .ok _ =>
    match o.assert_self_consistent with
    | .error e => .error e
    | .ok _ =>
      match s.assert_unionable o with
      | .error e => .error e
      | .ok _ => .ok (s.union_raw o)

/-- `Histogram` (Data.py): bin-count matrix (`hist_num_bins` rows ×
`bitrate` columns of `int64`), fixed range, bin count and bitrate.
`hist_bins` and `t_ticks` are `np.linspace` values derived from these
fields in `__init__` and are not independent state. -/
structure Histogram where
  hist : List (List ℤ)
  hist_range : ℚ × ℚ
  hist_num_bins : ℕ
  bitrate : ℕ
  version : String
deriving DecidableEq

/-- `Histogram.__init__` with all data arguments left at their defaults
(Data.py lines 44-75): an all-zero 256 × bitrate matrix over the range
(-1000, 1000). -/
def Histogram.init_default (bitrate : ℕ) : Histogram where
  hist := List.replicate 256 (List.replicate bitrate 0)
  hist_range := (-1000, 1000)
  hist_num_bins := 256
  bitrate := bitrate
  version := geco_version

/-- `Histogram.assert_self_consistent` (Data.py lines 107-118): the version
check, then `assert self.hist_bins == np.linspace(self.hist_range[0],
self.hist_range[1], self.hist_num_bins+1)` and `assert self.t_ticks ==
np.linspace(0, 1, self.bitrate+1)`.  Both asserts compare `numpy` ARRAYS --
of lengths `hist_num_bins + 1` and `bitrate + 1` -- so `assert` raises
`ValueError` (the truth value of a multi-element array is ambiguous)
whenever the compared array has more than one element, i.e. for every
histogram with at least one bin.  The compared values themselves are
identities by construction (`hist_bins`/`t_ticks` are set from exactly
these `linspace` expressions in `__init__` and never reassigned), so in the
degenerate single-element shapes the asserts reduce to true scalar tests. -/
def Histogram.assert_self_consistent (h : Histogram) : Except String Unit :=
  if h.version ≠ geco_version then
    .error "Histogram version does not match lib version"
  else if h.hist_num_bins + 1 > 1 then
    .error "ValueError: The truth value of an array with more than one element is ambiguous"
  else if h.bitrate + 1 > 1 then
    .error "ValueError: The truth value of an array with more than one element is ambiguous"
  else .ok ()

/-- `Histogram.assert_unionable` (Data.py). -/
def Histogram.assert_unionable (h o : Histogram) : Except String Unit :=
  if h.hist_range ≠ o.hist_range ∨ h.hist_num_bins ≠ o.hist_num_bins then
    .error "Histograms have different bin edges"
  else if h.bitrate ≠ o.bitrate then
    .error "Histograms have different bitrates"
  else if h.version ≠ o.version then
    .error "Histograms have different versions"
  else .ok ()

/-- `Histogram.__union__` (Data.py): element-wise matrix addition on a clone
of `self`. -/
def Histogram.union_raw (h o : Histogram) : Histogram :=
  { h with hist := List.zipWith (List.zipWith (· + ·)) h.hist o.hist }

/-- `AbstUnionable.union` specialized to `Histogram`. -/
def Histogram.union (h o : Histogram) : Except String Histogram :=
  match h.assert_self_consistent with
  | .error e => .error e
  | .ok _ =>
    match o.assert_self_consistent with
    | .error e => .error e
    | .ok _ =>
      match h.assert_unionable o with
      | .error e => .error e
      | .ok _ => .ok (h.union_raw o)

/-! ## Dictionary representation and the class factory (`geco_stat/Abstract.py`) -/

/-- The leaf shapes admitted by `AbstractDictRepresentable`: strings,
`np.int64`, `np.float64`, 1-D `float64` arrays, 2-D `int64` arrays and
nested dictionaries. -/
inductive PyVal where
  | str : String → PyVal
  | i64 : ℤ → PyVal
  | f64 : ℚ → PyVal
  | arrF : List ℚ → PyVal
  | arrI : List (List ℤ) → PyVal
  | dict : List (String × PyVal) → PyVal

abbrev PyDict := List (String × PyVal)

def dict_get : PyDict → String → Option PyVal
  | [], _ => none
  | (k', v) :: rest, k => if k' = k then some v else dict_get rest k

def dict_getStr (d : PyDict) (k : String) : Except String String :=
  match dict_get d k with
  | some (.str s) => .ok s
  | _ => .error ("KeyError: " ++ k)

def dict_getI64 (d : PyDict) (k : String) : Except String ℤ :=
  match dict_get d k with
  | some (.i64 n) => .ok n
  | _ => .error ("KeyError: " ++ k)

def dict_getArrF (d : PyDict) (k : String) : Except String (List ℚ) :=
  match dict_get d k with
  | some (.arrF l) => .ok l
  | _ => .error ("KeyError: " ++ k)

def dict_getArrI (d : PyDict) (k : String) : Except String (List (List ℤ)) :=
  match dict_get d k with
  | some (.arrI l) => .ok l
  | _ => .error ("KeyError: " ++ k)

/-- `Histogram.__to_dict__` (Data.py lines 129-137); the `to_dict` wrapper
re-sets the version and class tags to the same values. -/
def Histogram.to_dict (h : Histogram) : PyDict :=
  [("hist", .arrI h.hist),
   ("hist_range", .arrF [h.hist_range.1, h.hist_range.2]),
   ("hist_num_bins", .i64 h.hist_num_bins),
   ("bitrate", .i64 h.bitrate),
   ("version", .str h.version),
   ("class", .str "Histogram")]

/-- `Statistics.__to_dict__` (Data.py lines 286-297); the vectors are
already flat. -/
def Statistics.to_dict (s : Statistics) : PyDict :=
  [("sum", .arrF s.sum),
   ("sum_sq", .arrF s.sum_sq),
   ("max", .arrF s.max),
   ("min", .arrF s.min),
   ("num", .i64 s.num),
   ("bitrate", .i64 s.bitrate),
   ("version", .str s.version),
   ("class", .str "Statistics")]

/-- `TimeIntervalSet.__to_dict__` (Time.py lines 467-469).  Note that it
records no class tag. -/
def tis_to_dict (l : TIS) : PyDict :=
  [("data", .arrF l), ("version", .str geco_version)]

/-- Every `x.to_dict()` call on a `TimeIntervalSet`: `TimeIntervalSet` is an
old-style `ReportInterface` (Interface.py), which defines only the dunder
`__to_dict__` and NO public `to_dict` method, so the attribute lookup raises
`AttributeError` before anything runs. -/
def tis_to_dict_attr : Except String PyDict :=
  .error "AttributeError: TimeIntervalSet object has no attribute to_dict"

/-- The factory contents after importing the package: exactly the four
`Factory.add_class` calls in the sources (Data.py lines 327-328 and
Report.py lines 231-232).  Neither `TimeIntervalSet` nor `ReportSet` is
ever registered. -/
def factory_registered : List String :=
  ["Histogram", "Statistics", "IRIGBReport", "DuoToneReport"]

/-- `Factory.get_class` (Abstract.py lines 53-61): a plain dictionary
lookup, raising `KeyError` on an unregistered name. -/
def Factory.get_class (name : String) : Except String String :=
  if name ∈ factory_registered then .ok name
  else .error ("KeyError: " ++ name)

/-! ## `Report` (`geco_stat/Report.py`)

The `_data` dictionary has the fixed key set `{histogram, statistics}` of
the prototype in the `__report_data_prototype__` docstring; the fixed keys
become named fields. -/

/-- `TimeIntervalSet._assert_self_consistent` (Time.py lines 407-417):
sortedness (`sorted(data) == data`) and even endpoint count. -/
def tis_assert_self_consistent (l : TIS) : Except String Unit :=
  if ¬ l.Chain' (· ≤ ·) then
    .error "TimeIntervalSet corrupted: data not sorted"
  else if l.length % 2 ≠ 0 then
    .error "TimeIntervalSet corrupted: odd number of endpoints"
  else .ok ()

/-- `ReportInterface.union` specialized to `TimeIntervalSet` (Interface.py):
consistency of both operands (the version/type compatibility check of
`_confirm_unionability` cannot fail between two embedded interval sets),
then `__union__`. -/
def tis_union_checked (a b : TIS) : Except String TIS :=
  match tis_assert_self_consistent a with
  | .error e => .error e
  | .ok _ =>
    match tis_assert_self_consistent b with
    | .error e => .error e
    | .ok _ => .ok (tis_union a b)

structure Report where
  bitrate : ℕ
  time_intervals : TIS
  histogram : Histogram
  statistics : Statistics
  version : String
deriving DecidableEq

/-- An `AbstReport` built from the prototype data (empty primitives) over a
given interval set, as `__init__` does with `data=None`. -/
def Report.init_default (bitrate : ℕ) (tis : TIS) : Report where
  bitrate := bitrate
  time_intervals := tis
  histogram := Histogram.init_default bitrate
  statistics := Statistics.init_default bitrate
  version := geco_version

/-- `AbstReport.__to_dict__` (Report.py lines 188-196) under the
`AbstractDictRepresentable.to_dict` wrapper (which appends the version and
class tags; `cls` is `type(self).__name__`).  The primitive dictionaries
are built first; the returned dictionary display then evaluates
`self.time_intervals.to_dict()` (line 194), which raises `AttributeError`
(`tis_to_dict_attr`), so `to_dict` on a report always raises. -/
def Report.to_dict (cls : String) (r : Report) : Except String PyDict :=
  match tis_to_dict_attr with
  | .error e => .error e
  | .ok dti =>
    .ok [("bitrate", .i64 r.bitrate),
         ("time_intervals", .dict dti),
         ("data", .dict [("histogram", .dict r.histogram.to_dict),
                         ("statistics", .dict r.statistics.to_dict)]),
         ("version", .str r.version),
         ("class", .str cls)]

/-- `AbstractDictRepresentable.clone` specialized to a report (Abstract.py
lines 288-298): `from_dict(to_dict(self))`.  `to_dict` always raises (see
`Report.to_dict`).  The trailing branch is dead by construction; were a
dictionary ever produced, `AbstReport.__from_dict__` (Report.py lines
170-186) would still raise `KeyError`, since it resolves each data item's
class through `globals()[value['class']]` in Report.py, whose module globals
bind neither `Histogram` nor `Statistics`. -/
def Report.clone_impl (cls : String) (r : Report) : Except String Report :=
  match Report.to_dict cls r with
  | .error e => .error e
  | .ok _ => .error "KeyError: report data class not in Report.py globals"

/-- `AbstReport.assert_self_consistent` (Report.py lines 142-165): each
primitive is self-consistent and shares the report's bitrate and version;
the `isinstance`/version checks on `time_intervals` cannot fail in the
model. -/
def Report.assert_self_consistent (r : Report) : Except String Unit :=
  match r.histogram.assert_self_consistent with
  | .error e => .error e
  | .ok _ =>
    if r.bitrate ≠ r.histogram.bitrate then
      .error "Report constituents have different bitrates"
    else if r.version ≠ r.histogram.version then
      .error "Report constituents have different versions"
    else
      match r.statistics.assert_self_consistent with
      | .error e => .error e
      | .ok _ =>
        if r.bitrate ≠ r.statistics.bitrate then
          .error "Report constituents have different bitrates"
        else if r.version ≠ r.statistics.version then
          .error "Report constituents have different versions"
        else .ok ()

/-- `AbstReport.assert_unionable` (Report.py lines 125-139); the key-set
check is vacuous (fixed fields), and the coverage check raises when the
intersection is non-empty -- the correct direction at this level. -/
def Report.assert_unionable (r o : Report) : Except String Unit :=
  if r.bitrate ≠ o.bitrate then .error "Reports have different bitrates"
  else if r.version ≠ o.version then .error "Reports have different versions"
  else if intersection r.time_intervals o.time_intervals ≠ [] then
    .error "Reports have overlapping time intervals."
  else .ok ()

/-- `AbstReport.__union__` (Report.py lines 108-113): `ans = self.clone()`
first -- which always raises, see `Report.clone_impl` -- then the interval
sets are unioned with `+=` and each primitive with `+=`, where `+` is the
checked `union` whose failures propagate.  The class-name argument passed
down to the `to_dict` wrapper never reaches any output (the clone raises
before the tag is attached), so the base class name is passed here. -/
def Report.union_raw (r o : Report) : Except String Report :=
  match Report.clone_impl "AbstReport" r with
  | .error e => .error e
  | .ok ans =>
  match tis_union_checked ans.time_intervals o.time_intervals with
  | .error e => .error e
  | .ok ti =>
    match ans.histogram.union o.histogram with
    | .error e => .error e
    | .ok h =>
      match ans.statistics.union o.statistics with
      | .error e => .error e
      | .ok s =>
        .ok { ans with time_intervals := ti, histogram := h, statistics := s }

/-- `AbstUnionable.union` specialized to `AbstReport`. -/
def Report.union (r o : Report) : Except String Report :=
  match r.assert_self_consistent with
  | .error e => .error e
  | .ok _ =>
    match o.assert_self_consistent with
    | .error e => .error e
    | .ok _ =>
      match r.assert_unionable o with
      | .error e => .error e
      | .ok _ => r.union_raw o

/-! ## `ReportSet` (`geco_stat/ReportSet.py`) -/

structure ReportSet where
  report_class_name : String
  bitrate : ℕ
  channel_name : String
  time_intervals : TIS
  missing_times : TIS
  report : Report
  report_anomalies_only : Report
  report_sans_anomalies : Report
  version : String
deriving DecidableEq

/-- The names bound at module level in ReportSet.py when its methods run:
the module's imports (ReportSet.py lines 3-11) and the `ReportSet` class
itself.  No `AbstReport` subclass -- in particular neither `IRIGBReport`
nor `DuoToneReport` -- is ever imported into or defined in this module. -/
def reportset_globals : List String :=
  ["np", "__version__", "__release__", "__default_bitrate__",
   "MissingChannelDataException", "Factory", "AbstUnionable",
   "AbstractPlottable", "HDF5_IO", "TimeIntervalSet", "ReportSet"]

/-- `ReportSet.get_report_class` (ReportSet.py lines 76-88):
`globals()[self.report_class_name]` evaluated inside ReportSet.py -- a
`KeyError` for any name not in `reportset_globals`.  A successful lookup is
represented by the looked-up name itself (the binding is injective, so name
equality is object identity). -/
def ReportSet.get_report_class (rs : ReportSet) : Except String String :=
  if rs.report_class_name ∈ reportset_globals then .ok rs.report_class_name
  else .error ("KeyError: " ++ rs.report_class_name)

/-- Which objects in `reportset_globals` are classes at all: `np` is a
module and the version/release/bitrate bindings are strings and an int, and
`isinstance` raises `TypeError` when its second argument is not a type. -/
def reportset_global_is_class (c : String) : Bool :=
  !(["np", "__version__", "__release__", "__default_bitrate__"].contains c)

/-- `isinstance(r, C)` for a concrete report `r` and a class `C` bound in
ReportSet.py: the report classes are `AbstReport < AbstData <
(HDF5_IO, AbstUnionable)` (Data.py line 14, Report.py line 12), so the
check holds exactly for those two base classes among the module's bindings
and fails for every other class there. -/
def reportset_report_isinstance (c : String) : Bool :=
  c == "AbstUnionable" || c == "HDF5_IO"

/-- One iteration of the report loop in `ReportSet.assert_self_consistent`
(ReportSet.py lines 142-161).  `self.get_report_class()` may raise
`KeyError`; `isinstance` with a non-class second argument raises
`TypeError`; and each `raise ValueError('key ' + r.__name__ + ...)` branch
itself raises `AttributeError` while building the message, because report
instances have no `__name__` attribute. -/
def ReportSet.check_report (rs : ReportSet) (r : Report) : Except String Unit :=
  match rs.get_report_class with
  | .error e => .error e
  | .ok c =>
    if ¬ reportset_global_is_class c then
      .error "TypeError: isinstance() arg 2 must be a type"
    else if ¬ reportset_report_isinstance c then
      .error "AttributeError: report object has no attribute __name__"
    else
      match r.assert_self_consistent with
      | .error e => .error e
      | .ok _ =>
        if rs.bitrate ≠ r.bitrate then
          .error "AttributeError: report object has no attribute __name__"
        else if rs.version ≠ r.version then
          .error "AttributeError: report object has no attribute __name__"
        else .ok ()

/-- `ReportSet.assert_self_consistent` (ReportSet.py lines 140-185): the
report loop (`check_report`, whose `get_report_class`/`isinstance`/
`__name__` failures propagate) over the three reports, the interval-set
loop, `report == report_anomalies_only + report_sans_anomalies` (Report
union, whose own failures propagate),
`missing_times + time_intervals == time_intervals`, and
`time_intervals == report.time_intervals`. -/
def ReportSet.assert_self_consistent (rs : ReportSet) : Except String Unit :=
  match rs.check_report rs.report with
  | .error e => .error e
  | .ok _ =>
  match rs.check_report rs.report_anomalies_only with
  | .error e => .error e
  | .ok _ =>
  match rs.check_report rs.report_sans_anomalies with
  | .error e => .error e
  | .ok _ =>
  match tis_assert_self_consistent rs.time_intervals with
  | .error e => .error e
  | .ok _ =>
  match tis_assert_self_consistent rs.missing_times with
  | .error e => .error e
  | .ok _ =>
  match Report.union rs.report_anomalies_only rs.report_sans_anomalies with
  | .error e => .error e
  | .ok u =>
  if u ≠ rs.report then
    .error "whole report should be union of anomalous and nominal parts"
  else
  match tis_union_checked rs.missing_times rs.time_intervals with
  | .error e => .error e
  | .ok mt =>
  if mt ≠ rs.time_intervals then
    .error "missing times should be subset of all times in ReportSet"
  else if rs.time_intervals ≠ rs.report.time_intervals then
    .error "time intervals in full Report and ReportSet should match"
  else .ok ()

/-- `ReportSet.assert_unionable` (ReportSet.py lines 187-203): the
`isinstance` check is vacuous between two `ReportSet` values; line 190
compares `self.get_report_class()` with `other.get_report_class()`, each a
`globals()` lookup in ReportSet.py that raises `KeyError` for names not
bound there; then channel name, bitrate and version.  NOTE the final test
is taken verbatim from the source: it raises precisely when the
intersection of the two coverages EQUALS the empty set, i.e. on
non-overlapping operands. -/
def ReportSet.assert_unionable (rs o : ReportSet) : Except String Unit :=
  match rs.get_report_class with
  | .error e => .error e
  | .ok cs =>
  match o.get_report_class with
  | .error e => .error e
  | .ok co =>
  if cs ≠ co then
    .error "instances of ReportSet must have same Report class"
  else if rs.channel_name ≠ o.channel_name then
    .error "instances of ReportSet must have same channel_name"
  else if rs.bitrate ≠ o.bitrate then
    .error "instances of ReportSet must have same bitrate"
  else if rs.version ≠ o.version then
    .error "instances of ReportSet must have same version"
  else if intersection rs.time_intervals o.time_intervals = [] then
    .error "instances of ReportSet cannot cover overlapping time intervals"
  else .ok ()

/-- `ReportSet.__to_dict__` (ReportSet.py lines 245-255) under the
`to_dict` wrapper.  The dictionary display evaluates
`self.time_intervals.to_dict()` as its fourth entry, which raises
`AttributeError` (`tis_to_dict_attr`); the report entries would raise the
same way (see `Report.to_dict`).  So `to_dict` on a `ReportSet` always
raises before a dictionary -- let alone the class tag -- exists. -/
def ReportSet.to_dict (rs : ReportSet) : Except String PyDict :=
  match tis_to_dict_attr with
  | .error e => .error e
  | .ok dti =>
  match Report.to_dict rs.report_class_name rs.report with
  | .error e => .error e
  | .ok dr =>
  match Report.to_dict rs.report_class_name rs.report_anomalies_only with
  | .error e => .error e
  | .ok da =>
  match Report.to_dict rs.report_class_name rs.report_sans_anomalies with
  | .error e => .error e
  | .ok ds =>
  match tis_to_dict_attr with
  | .error e => .error e
  | .ok dmt =>
    .ok [("report_class_name", .str rs.report_class_name),
         ("bitrate", .i64 rs.bitrate),
         ("channel_name", .str rs.channel_name),
         ("time_intervals", .dict dti),
         ("report", .dict dr),
         ("report_anomalies_only", .dict da),
         ("report_sans_anomalies", .dict ds),
         ("missing_times", .dict dmt),
         ("version", .str rs.version),
         ("class", .str "ReportSet")]

/-- `AbstractDictRepresentable.clone` specialized to `ReportSet` (the
`HDF5_IO` base is inherited first exactly to get this implementation,
ReportSet.py line 13): `from_dict(to_dict(self))`.  `to_dict` always raises
(see `ReportSet.to_dict`).  The trailing branch is dead by construction;
were a dictionary ever produced, `from_dict` would still raise `KeyError`
at the factory dispatch on its class tag, since `ReportSet` is never
registered (`factory_registered`). -/
def ReportSet.clone_impl (rs : ReportSet) : Except String ReportSet :=
  match rs.to_dict with
  | .error e => .error e
  | .ok _ => .error "KeyError: ReportSet"

/-- `ReportSet.__union__` (ReportSet.py lines 205-211): `ans = self.clone()`
first -- which always raises, see `ReportSet.clone_impl` -- then the five
`+=` unions (any failure inside a `+` propagates), and then control falls
off the end of the method: there is no `return` statement, so a successful
run would yield Python `None`. -/
def ReportSet.union_impl (rs o : ReportSet) : Except String (Option ReportSet) :=
  match rs.clone_impl with
  | .error e => .error e
  | .ok ans =>
  match tis_union_checked ans.time_intervals o.time_intervals with
  | .error e => .error e
  | .ok _ =>
    match tis_union_checked ans.missing_times o.missing_times with
    | .error e => .error e
    | .ok _ =>
      match Report.union ans.report o.report with
      | .error e => .error e
      | .ok _ =>
        match Report.union ans.report_anomalies_only o.report_anomalies_only with
        | .error e => .error e
        | .ok _ =>
          match Report.union ans.report_sans_anomalies o.report_sans_anomalies with
          | .error e => .error e
          | .ok _ => .ok none

/-- `AbstUnionable.union` specialized to `ReportSet`. -/
def ReportSet.union (rs o : ReportSet) : Except String (Option ReportSet) :=
  match rs.assert_self_consistent with
  | .error e => .error e
  | .ok _ =>
    match o.assert_self_consistent with
    | .error e => .error e
    | .ok _ =>
      match rs.assert_unionable o with
      | .error e => .error e
      | .ok _ => rs.union_impl o


/-! ## Reconstruction through the factory (`geco_stat/Abstract.py`) -/

/-- Values reconstructible through `AbstractDictRepresentable.from_dict`. -/
inductive GecoVal where
  | hist : Histogram → GecoVal
  | stats : Statistics → GecoVal
deriving DecidableEq

/-- `Histogram.__from_dict__` (Data.py lines 120-127): read the four data
fields and re-run the constructor, which re-validates `hist_range`. -/
def Histogram.from_dict_impl (d : PyDict) : Except String Histogram :=
  match dict_getArrI d "hist" with
  | .error e => .error e
  | .ok hist =>
    match dict_getArrF d "hist_range" with
    | .error e => .error e
    | .ok range =>
      match dict_getI64 d "hist_num_bins" with
      | .error e => .error e
      | .ok bins =>
        match dict_getI64 d "bitrate" with
        | .error e => .error e
        | .ok bitrate =>
          match range with
          | [lo, hi] =>
            if lo ≥ hi then
              .error "min val of hist bin range must be less than max"
            else
              .ok { hist := hist, hist_range := (lo, hi),
                    hist_num_bins := bins.toNat, bitrate := bitrate.toNat,
                    version := geco_version }
          | _ => .error "second argument (hist_range) must have length 2"

/-- `Statistics.__from_dict__` (Data.py lines 275-284): read the six data
fields and re-run the constructor, whose `reshape((bitrate,))` calls fail on
a length mismatch. -/
def Statistics.from_dict_impl (d : PyDict) : Except String Statistics :=
  match dict_getArrF d "sum" with
  | .error e => .error e
  | .ok sum =>
    match dict_getArrF d "sum_sq" with
    | .error e => .error e
    | .ok sum_sq =>
      match dict_getArrF d "max" with
      | .error e => .error e
      | .ok mx =>
        match dict_getArrF d "min" with
        | .error e => .error e
        | .ok mn =>
          match dict_getI64 d "num" with
          | .error e => .error e
          | .ok num =>
            match dict_getI64 d "bitrate" with
            | .error e => .error e
            | .ok bitrate =>
              if sum.length ≠ bitrate.toNat ∨ sum_sq.length ≠ bitrate.toNat ∨
                  mx.length ≠ bitrate.toNat ∨ mn.length ≠ bitrate.toNat then
                .error "cannot reshape array: total size must be unchanged"
              else
                .ok { sum := sum, sum_sq := sum_sq, max := mx, min := mn,
                      num := num, bitrate := bitrate.toNat,
                      version := geco_version }

/-- `AbstractDictRepresentable.from_dict` (Abstract.py lines 272-286):
dispatch through the factory on `d['class']`, check the version, then call
the class's `__from_dict__`.  For the two registered report classes,
`AbstReport.__from_dict__` (Report.py lines 170-186) resolves each data
item's class through `globals()[value['class']]` in Report.py, whose module
globals bind neither `Histogram` nor `Statistics`, and then calls
`TimeIntervalSet.from_dict`, which does not exist on `ReportInterface`;
reconstruction of a report therefore fails with a lookup error. -/
def from_dict (d : PyDict) : Except String GecoVal :=
  match dict_getStr d "class" with
  | .error e => .error e
  | .ok cls =>
    match Factory.get_class cls with
    | .error e => .error e
    | .ok c =>
      match dict_getStr d "version" with
      | .error e => .error e
      | .ok v =>
        if v ≠ geco_version then
          .error "Tried constructing an instance using old version"
        else if c = "Histogram" then
          match Histogram.from_dict_impl d with
          | .error e => .error e
          | .ok h => .ok (.hist h)
        else if c = "Statistics" then
          match Statistics.from_dict_impl d with
          | .error e => .error e
          | .ok s => .ok (.stats s)
        else
          .error "KeyError: report data class not in Report.py globals"

/-! ## Concrete fixtures used by the evaluation theorems -/

/-- A `Statistics` block over one second with all accumulators 1. -/
def stats_one : Statistics :=
  { sum := [1], sum_sq := [1], max := [1], min := [1], num := 1,
    bitrate := 1, version := geco_version }

/-- A `Statistics` block over one second with all accumulators 2. -/
def stats_two : Statistics :=
  { sum := [2], sum_sq := [2], max := [2], min := [2], num := 1,
    bitrate := 1, version := geco_version }

/-- The value `Statistics.union stats_one stats_two` actually produces. -/
def stats_observed : Statistics :=
  { sum := [3], sum_sq := [3], max := [3], min := [3], num := 2,
    bitrate := 1, version := geco_version }

/-- A `Statistics` block with sample data and extrema 0. -/
def stats_sample : Statistics :=
  { sum := [1], sum_sq := [1], max := [0], min := [0], num := 1,
    bitrate := 1, version := geco_version }

/-- An all-zero `Statistics` block (explicit zero extrema, so that it is an
exact union of two copies of itself). -/
def stats_zero : Statistics :=
  { sum := [0], sum_sq := [0], max := [0], min := [0], num := 0,
    bitrate := 1, version := geco_version }

/-- A small all-zero one-bin histogram (`Histogram(hist_num_bins=1, bitrate=1)`). -/
def hist_small : Histogram :=
  { hist := [[0]], hist_range := (-1000, 1000), hist_num_bins := 1,
    bitrate := 1, version := geco_version }

/-- A bitrate-1 report with all-zero primitives over the given coverage. -/
def report_over (l : TIS) : Report :=
  { bitrate := 1, time_intervals := l, histogram := hist_small,
    statistics := stats_zero, version := geco_version }

/-- A structurally coherent `ReportSet` value over the window `[0, 1)`, as
the claim intends it: the anomalous partition is empty, the nominal
partition carries the window, and all numeric accumulators are zero so that
`report` is the value-wise union of the two partitions.  Its class name is
the report class `IRIGBReport` -- which ReportSet.py's module globals do
not bind. -/
def rs_first : ReportSet :=
  { report_class_name := "IRIGBReport", bitrate := 1,
    channel_name := "X1:channel", time_intervals := [0, 1],
    missing_times := [], report := report_over [0, 1],
    report_anomalies_only := report_over [],
    report_sans_anomalies := report_over [0, 1], version := geco_version }

/-- The same `ReportSet` over the disjoint window `[2, 3)`. -/
def rs_second : ReportSet :=
  { report_class_name := "IRIGBReport", bitrate := 1,
    channel_name := "X1:channel", time_intervals := [2, 3],
    missing_times := [], report := report_over [2, 3],
    report_anomalies_only := report_over [],
    report_sans_anomalies := report_over [2, 3], version := geco_version }

/-- `rs_first` with a class name that IS bound in ReportSet.py
(`TimeIntervalSet`), so that both `get_report_class()` calls in
`assert_unionable` succeed and compare equal, and control reaches the
coverage test at ReportSet.py lines 200-203. -/
def rs_tis_a : ReportSet :=
  { rs_first with report_class_name := "TimeIntervalSet" }

/-- `rs_second` with the same bound class name, for the disjoint pair. -/
def rs_tis_b : ReportSet :=
  { rs_second with report_class_name := "TimeIntervalSet" }

/-! ## Counting endpoints in sorted lists -/

lemma cnt_append (l1 l2 : TIS) (t : ℚ) : cnt (l1 ++ l2) t = cnt l1 t + cnt l2 t :=
  List.countP_append _ _ _

lemma cnt_cons (c : ℚ) (l : TIS) (t : ℚ) :
    cnt (c :: l) t = cnt l t + if c ≤ t then 1 else 0 := by
  simp [cnt, List.countP_cons]

lemma cnt_all_le {l : TIS} {t : ℚ} (h : ∀ x ∈ l, x ≤ t) : cnt l t = l.length :=
  List.countP_eq_length.mpr (by intro a ha; simpa using h a ha)

lemma cnt_all_gt {l : TIS} {t : ℚ} (h : ∀ x ∈ l, t < x) : cnt l t = 0 :=
  List.countP_eq_zero.mpr (by intro a ha; simpa using not_le.mpr (h a ha))

lemma bl_le_length (l : TIS) (a : ℚ) : bisect_left l a ≤ l.length :=
  List.countP_le_length _

lemma br_le_length (l : TIS) (b : ℚ) : bisect_right l b ≤ l.length :=
  List.countP_le_length _

lemma bl_le_br (l : TIS) {a b : ℚ} (hab : a ≤ b) :
    bisect_left l a ≤ bisect_right l b := by
  apply List.countP_mono_left
  intro x _ h
  simp only [decide_eq_true_eq] at h ⊢
  exact le_trans (le_of_lt h) hab

/-- In a sorted list, the elements counted by a downward-closed predicate form
exactly the prefix of that length. -/
lemma sorted_countP_split (p : ℚ → Bool)
    (hdc : ∀ x y : ℚ, x ≤ y → p y = true → p x = true) :
    ∀ l : TIS, l.Pairwise (· ≤ ·) →
      (∀ x ∈ l.take (l.countP p), p x = true) ∧
      (∀ x ∈ l.drop (l.countP p), p x = false)
  | [], _ => by simp
  | c :: tl, hs => by
    rcases List.pairwise_cons.mp hs with ⟨hc, htl⟩
    by_cases hpc : p c = true
    · have hcount : List.countP p (c :: tl) = List.countP p tl + 1 := by
        simp [List.countP_cons, hpc]
      rw [hcount]
      constructor
      · intro x hx
        rw [List.take_succ_cons] at hx
        rcases List.mem_cons.mp hx with rfl | hx
        · exact hpc
        · exact (sorted_countP_split p hdc tl htl).1 x hx
      · intro x hx
        rw [List.drop_succ_cons] at hx
        exact (sorted_countP_split p hdc tl htl).2 x hx
    · have hz : List.countP p tl = 0 := by
        apply List.countP_eq_zero.mpr
        intro a ha hpa
        exact hpc (hdc c a (hc a ha) hpa)
      have hcount : List.countP p (c :: tl) = 0 := by
        simp [List.countP_cons, hz, hpc]
      rw [hcount]
      refine ⟨by simp, ?_⟩
      intro x hx
      simp only [List.drop_zero] at hx
      rcases List.mem_cons.mp hx with rfl | hx
      · simpa using hpc
      · by_contra hpx
        have hpx' : p x = true := by simpa using hpx
        exact hpc (hdc c x (hc x hx) hpx')

lemma take_bl_lt {l : TIS} (hs : l.Pairwise (· ≤ ·)) (a : ℚ) :
    ∀ x ∈ l.take (bisect_left l a), x < a := by
  intro x hx
  have := (sorted_countP_split (fun x => decide (x < a))
    (by intro u v huv h; simp only [decide_eq_true_eq] at h ⊢; exact lt_of_le_of_lt huv h)
    l hs).1 x hx
  simpa using this

lemma drop_bl_ge {l : TIS} (hs : l.Pairwise (· ≤ ·)) (a : ℚ) :
    ∀ x ∈ l.drop (bisect_left l a), a ≤ x := by
  intro x hx
  have := (sorted_countP_split (fun x => decide (x < a))
    (by intro u v huv h; simp only [decide_eq_true_eq] at h ⊢; exact lt_of_le_of_lt huv h)
    l hs).2 x hx
  simpa [not_lt] using this

lemma take_br_le {l : TIS} (hs : l.Pairwise (· ≤ ·)) (b : ℚ) :
    ∀ x ∈ l.take (bisect_right l b), x ≤ b := by
  intro x hx
  have := (sorted_countP_split (fun x => decide (x ≤ b))
    (by intro u v huv h; simp only [decide_eq_true_eq] at h ⊢; exact le_trans huv h)
    l hs).1 x hx
  simpa using this

lemma drop_br_gt {l : TIS} (hs : l.Pairwise (· ≤ ·)) (b : ℚ) :
    ∀ x ∈ l.drop (bisect_right l b), b < x := by
  intro x hx
  have := (sorted_countP_split (fun x => decide (x ≤ b))
    (by intro u v huv h; simp only [decide_eq_true_eq] at h ⊢; exact le_trans huv h)
    l hs).2 x hx
  simpa [not_le] using this

lemma length_take_of_le {l : TIS} {n : ℕ} (h : n ≤ l.length) :
    (l.take n).length = n := by
  simp [List.length_take, inf_eq_left.mpr h]

/-- Three-way decomposition of a list at indices `i ≤ j`. -/
lemma decomp_three {l : TIS} {i j : ℕ} (hij : i ≤ j) :
    l = l.take i ++ slice l i j ++ l.drop j := by
  have h1 : l.take j = l.take i ++ slice l i j := by
    unfold slice
    conv_lhs => rw [← List.take_append_drop i (l.take j)]
    rw [List.take_take, inf_eq_left.mpr hij]
  conv_lhs => rw [← List.take_append_drop j l]
  rw [h1]

lemma slice_length {l : TIS} {i j : ℕ} (hij : i ≤ j) (hjl : j ≤ l.length) :
    (slice l i j).length = j - i := by
  unfold slice
  simp [List.length_drop, List.length_take, inf_eq_left.mpr hjl]

lemma mem_slice_mem_take {l : TIS} {i j : ℕ} {x : ℚ} (hx : x ∈ slice l i j) :
    x ∈ l.take j := (List.drop_sublist _ _).mem hx

lemma mem_slice_mem_drop {l : TIS} {i j : ℕ} {x : ℚ} (hx : x ∈ slice l i j) :
    x ∈ l.drop i := by
  unfold slice at hx
  rw [List.drop_take] at hx
  exact (List.take_sublist _ _).mem hx

/-! ## Properties of `remove_empty_sets` -/

lemma remove_sublist : ∀ l : TIS, (remove_empty_sets l).Sublist l
  | [] => by simp [remove_empty_sets]
  | [x] => by simp [remove_empty_sets]
  | x :: y :: rest => by
    rw [remove_empty_sets]
    by_cases h : x = y
    · rw [if_pos h]
      exact ((remove_sublist rest).trans (List.sublist_cons_self _ _)).trans
        (List.sublist_cons_self _ _)
    · rw [if_neg h]
      exact (remove_sublist (y :: rest)).cons₂ x

lemma length_remove_parity : ∀ l : TIS,
    (remove_empty_sets l).length % 2 = l.length % 2
  | [] => by simp [remove_empty_sets]
  | [x] => by simp [remove_empty_sets]
  | x :: y :: rest => by
    rw [remove_empty_sets]
    by_cases h : x = y
    · rw [if_pos h]
      have := length_remove_parity rest
      simp only [List.length_cons]
      omega
    · rw [if_neg h]
      have := length_remove_parity (y :: rest)
      simp only [List.length_cons] at this ⊢
      omega

lemma cnt_remove_parity (t : ℚ) : ∀ l : TIS,
    cnt (remove_empty_sets l) t % 2 = cnt l t % 2
  | [] => by simp [remove_empty_sets]
  | [x] => by simp [remove_empty_sets]
  | x :: y :: rest => by
    rw [remove_empty_sets]
    by_cases h : x = y
    · rw [if_pos h]
      have hr := cnt_remove_parity t rest
      rw [cnt_cons, cnt_cons, h]
      omega
    · rw [if_neg h]
      have hr := cnt_remove_parity t (y :: rest)
      rw [cnt_cons, cnt_cons]
      omega

lemma remove_pairwise : ∀ l : TIS, l.Pairwise (· ≤ ·) →
    (remove_empty_sets l).Pairwise (· < ·)
  | [], _ => by simp [remove_empty_sets]
  | [x], _ => by simp [remove_empty_sets]
  | x :: y :: rest, h => by
    rcases List.pairwise_cons.mp h with ⟨hx, hyr⟩
    rw [remove_empty_sets]
    by_cases hxy : x = y
    · rw [if_pos hxy]
      exact remove_pairwise rest (List.pairwise_cons.mp hyr).2
    · rw [if_neg hxy]
      refine List.pairwise_cons.mpr ⟨?_, remove_pairwise (y :: rest) hyr⟩
      intro z hz
      have hzy : z ∈ y :: rest := (remove_sublist (y :: rest)).mem hz
      have hyz : y ≤ z := by
        rcases List.mem_cons.mp hzy with rfl | hzr
        · exact le_refl _
        · exact (List.pairwise_cons.mp hyr).1 z hzr
      exact lt_of_lt_of_le
        (lt_of_le_of_ne (hx y (List.mem_cons_self _ _)) hxy) hyz

lemma remove_eq_self : ∀ l : TIS, l.Pairwise (· < ·) → remove_empty_sets l = l
  | [], _ => by simp [remove_empty_sets]
  | [x], _ => by simp [remove_empty_sets]
  | x :: y :: rest, h => by
    rcases List.pairwise_cons.mp h with ⟨hx, hyr⟩
    rw [remove_empty_sets,
      if_neg (ne_of_lt (hx y (List.mem_cons_self _ _))),
      remove_eq_self (y :: rest) hyr]

lemma mem_remove {l : TIS} {x : ℚ} (hx : x ∈ remove_empty_sets l) : x ∈ l :=
  (remove_sublist l).mem hx

lemma covers_remove (l : TIS) (t : ℚ) :
    covers (remove_empty_sets l) t ↔ covers l t := by
  unfold covers
  rw [cnt_remove_parity]

/-! ## Validity helpers and the parity membership characterization -/

lemma Valid.tail2 {a b : ℚ} {rest : TIS} (h : Valid (a :: b :: rest)) :
    Valid rest ∧ a < b ∧ ∀ z ∈ rest, b < z := by
  rcases h with ⟨hp, he⟩
  rcases List.pairwise_cons.mp hp with ⟨ha, hp2⟩
  rcases List.pairwise_cons.mp hp2 with ⟨hb, hp3⟩
  refine ⟨⟨hp3, ?_⟩, ha b (List.mem_cons_self _ _), hb⟩
  simp only [List.length_cons] at he
  omega

lemma covers_cons_cons {a b : ℚ} {rest : TIS} (hab : a < b)
    (hrest : ∀ z ∈ rest, b < z) (t : ℚ) :
    covers (a :: b :: rest) t ↔ (a ≤ t ∧ t < b) ∨ covers rest t := by
  unfold covers
  rw [cnt_cons, cnt_cons]
  rcases lt_or_le t a with hta | hta
  · have h0 : cnt rest t = 0 :=
      cnt_all_gt (fun x hx => lt_trans (lt_trans hta hab) (hrest x hx))
    rw [h0, if_neg (not_le.mpr hta), if_neg (not_le.mpr (lt_trans hta hab))]
    constructor
    · intro h; omega
    · rintro (⟨h1, _⟩ | h2)
      · exact absurd h1 (not_le.mpr hta)
      · omega
  · rcases lt_or_le t b with htb | htb
    · have h0 : cnt rest t = 0 :=
        cnt_all_gt (fun x hx => lt_trans htb (hrest x hx))
      rw [h0, if_pos hta, if_neg (not_le.mpr htb)]
      constructor
      · intro _; exact Or.inl ⟨hta, htb⟩
      · intro _; omega
    · rw [if_pos hta, if_pos htb]
      constructor
      · intro h
        refine Or.inr ?_
        omega
      · rintro (⟨_, h1⟩ | h2)
        · exact absurd h1 (not_lt.mpr htb)
        · omega

lemma covers_nil (t : ℚ) : ¬ covers [] t := by simp [covers, cnt]

lemma covers_first {a : ℚ} {l : TIS} (h : Valid (a :: l)) : covers (a :: l) a := by
  match l with
  | [] => exact absurd h.2 (by simp)
  | b :: rest =>
    unfold covers
    rw [cnt_cons, if_pos (le_refl a),
      cnt_all_gt (fun x hx => (List.pairwise_cons.mp h.1).1 x hx)]

lemma covers_iff_inSet : ∀ l : TIS, Valid l → ∀ t : ℚ, (inSet l t ↔ covers l t)
  | [], _, t => by simp [inSet, covers_nil]
  | [x], h, t => absurd h.2 (by simp)
  | a :: b :: rest, h, t => by
    rcases h.tail2 with ⟨hrest, hab, hb⟩
    rw [covers_cons_cons hab hb]
    show ((decide (a ≤ t) && decide (t < b)) || inSet rest t) = true ↔ _
    rw [Bool.or_eq_true, Bool.and_eq_true]
    rw [covers_iff_inSet rest hrest t]
    simp [decide_eq_true_eq]

/-! ## The union splice -/

lemma cnt_pair (a b t : ℚ) :
    cnt [a, b] t = (if a ≤ t then 1 else 0) + (if b ≤ t then 1 else 0) := by
  by_cases ha : a ≤ t <;> by_cases hb : b ≤ t <;>
    simp [cnt, List.countP_cons, ha, hb]

lemma cnt_singleton (x t : ℚ) : cnt [x] t = if x ≤ t then 1 else 0 := by
  by_cases hx : x ≤ t <;> simp [cnt, List.countP_cons, hx]

lemma covers_splice_union {S : TIS} (hS : Valid S) {a b : ℚ} (hab : a < b)
    (t : ℚ) :
    covers (splice_union S a b) t ↔ covers S t ∨ (a ≤ t ∧ t < b) := by
  have hSle : S.Pairwise (· ≤ ·) := hS.1.imp le_of_lt
  unfold covers splice_union
  set bl := bisect_left S a with hbldef
  set br := bisect_right S b with hbrdef
  have hblbr : bl ≤ br := bl_le_br S (le_of_lt hab)
  have hbrlen : br ≤ S.length := br_le_length S b
  have hbllen : bl ≤ S.length := bl_le_length S a
  have hlen_take : (S.take bl).length = bl := length_take_of_le hbllen
  have hslice_len : (slice S bl br).length = br - bl := slice_length hblbr hbrlen
  have hdecomp : S = S.take bl ++ slice S bl br ++ S.drop br :=
    decomp_three (l := S) hblbr
  have hcntS : cnt S t = cnt (S.take bl) t + cnt (slice S bl br) t
      + cnt (S.drop br) t := by
    conv_lhs => rw [hdecomp]
    rw [cnt_append, cnt_append]
  rcases lt_or_le t a with hta | hta
  · -- region t < a
    have hmem : ¬ (a ≤ t ∧ t < b) := fun hc => absurd hc.1 (not_le.mpr hta)
    have hsl : cnt (slice S bl br) t = 0 :=
      cnt_all_gt (fun x hx =>
        lt_of_lt_of_le hta (drop_bl_ge hSle a x (mem_slice_mem_drop hx)))
    have hdr : cnt (S.drop br) t = 0 :=
      cnt_all_gt (fun x hx =>
        lt_trans (lt_trans hta hab) (drop_br_gt hSle b x hx))
    have hna : ¬ (a ≤ t) := not_le.mpr hta
    have hnb : ¬ (b ≤ t) := not_le.mpr (lt_trans hta hab)
    have hScnt : cnt S t = cnt (S.take bl) t := by rw [hcntS, hsl, hdr]; omega
    rw [or_iff_left hmem]
    by_cases h1 : bl % 2 = 0
    · by_cases h2 : br % 2 = 0
      · rw [if_pos h1, if_pos h2]
        rw [cnt_append, cnt_append, cnt_pair, if_neg hna, if_neg hnb, hdr,
          hScnt]
        omega
      · rw [if_pos h1, if_neg h2]
        rw [cnt_append, cnt_append, cnt_singleton, if_neg hna, hdr, hScnt]
        omega
    · by_cases h2 : br % 2 = 0
      · rw [if_neg h1, if_pos h2]
        rw [cnt_append, cnt_append, cnt_singleton, if_neg hnb, hdr, hScnt]
        omega
      · rw [if_neg h1, if_neg h2]
        rw [cnt_append, hdr, hScnt]
        omega
  · rcases lt_or_le t b with htb | htb
    · -- region a ≤ t < b
      have hmem : a ≤ t ∧ t < b := ⟨hta, htb⟩
      have htake : cnt (S.take bl) t = bl := by
        rw [cnt_all_le (fun x hx =>
          le_of_lt (lt_of_lt_of_le (take_bl_lt hSle a x hx) hta)), hlen_take]
      have hdr : cnt (S.drop br) t = 0 :=
        cnt_all_gt (fun x hx => lt_trans htb (drop_br_gt hSle b x hx))
      have hnb : ¬ (b ≤ t) := not_le.mpr htb
      refine iff_of_true ?_ (Or.inr hmem)
      by_cases h1 : bl % 2 = 0
      · by_cases h2 : br % 2 = 0
        · rw [if_pos h1, if_pos h2]
          rw [cnt_append, cnt_append, cnt_pair, if_pos hta, if_neg hnb, hdr,
            htake]
          omega
        · rw [if_pos h1, if_neg h2]
          rw [cnt_append, cnt_append, cnt_singleton, if_pos hta, hdr, htake]
          omega
      · by_cases h2 : br % 2 = 0
        · rw [if_neg h1, if_pos h2]
          rw [cnt_append, cnt_append, cnt_singleton, if_neg hnb, hdr, htake]
          omega
        · rw [if_neg h1, if_neg h2]
          rw [cnt_append, hdr, htake]
          omega
    · -- region b ≤ t
      have hmem : ¬ (a ≤ t ∧ t < b) := fun hc => absurd hc.2 (not_lt.mpr htb)
      have ha' : a ≤ t := le_trans (le_of_lt hab) htb
      have htake : cnt (S.take bl) t = bl := by
        rw [cnt_all_le (fun x hx =>
          le_of_lt (lt_of_lt_of_le (take_bl_lt hSle a x hx) ha')), hlen_take]
      have hsl : cnt (slice S bl br) t = br - bl := by
        rw [cnt_all_le (fun x hx =>
          le_trans (take_br_le hSle b x (mem_slice_mem_take hx)) htb),
          hslice_len]
      have hScnt : cnt S t = bl + (br - bl) + cnt (S.drop br) t := by
        rw [hcntS, htake, hsl]
      rw [or_iff_left hmem]
      by_cases h1 : bl % 2 = 0
      · by_cases h2 : br % 2 = 0
        · rw [if_pos h1, if_pos h2]
          rw [cnt_append, cnt_append, cnt_pair, if_pos ha', if_pos htb,
            htake, hScnt]
          omega
        · rw [if_pos h1, if_neg h2]
          rw [cnt_append, cnt_append, cnt_singleton, if_pos ha', htake, hScnt]
          omega
      · by_cases h2 : br % 2 = 0
        · rw [if_neg h1, if_pos h2]
          rw [cnt_append, cnt_append, cnt_singleton, if_pos htb, htake, hScnt]
          omega
        · rw [if_neg h1, if_neg h2]
          rw [cnt_append, htake, hScnt]
          omega

lemma sandwich_sorted {pre mid post : TIS}
    (hpre : pre.Pairwise (· ≤ ·)) (hmid : mid.Pairwise (· ≤ ·))
    (hpost : post.Pairwise (· ≤ ·))
    (h1 : ∀ x ∈ pre, ∀ y ∈ mid, x ≤ y)
    (h2 : ∀ y ∈ mid, ∀ z ∈ post, y ≤ z)
    (h3 : ∀ x ∈ pre, ∀ z ∈ post, x ≤ z) :
    (pre ++ mid ++ post).Pairwise (· ≤ ·) := by
  rw [List.pairwise_append, List.pairwise_append]
  refine ⟨⟨hpre, hmid, h1⟩, hpost, ?_⟩
  intro x hx z hz
  rcases List.mem_append.mp hx with hx | hx
  · exact h3 x hx z hz
  · exact h2 x hx z hz

lemma splice_union_sorted {S : TIS} (hS : Valid S) {a b : ℚ} (hab : a < b) :
    (splice_union S a b).Pairwise (· ≤ ·) ∧
      (splice_union S a b).length % 2 = 0 := by
  have hSle : S.Pairwise (· ≤ ·) := hS.1.imp le_of_lt
  unfold splice_union
  set bl := bisect_left S a with hbldef
  set br := bisect_right S b with hbrdef
  have hblbr : bl ≤ br := bl_le_br S (le_of_lt hab)
  have hbrlen : br ≤ S.length := br_le_length S b
  have hbllen : bl ≤ S.length := bl_le_length S a
  have hlen_take : (S.take bl).length = bl := length_take_of_le hbllen
  have htp : (S.take bl).Pairwise (· ≤ ·) :=
    List.Pairwise.sublist (List.take_sublist _ _) hSle
  have hdp : (S.drop br).Pairwise (· ≤ ·) :=
    List.Pairwise.sublist (List.drop_sublist _ _) hSle
  have htlt := take_bl_lt hSle a
  have hdgt := drop_br_gt hSle b
  have htd : ∀ x ∈ S.take bl, ∀ z ∈ S.drop br, x ≤ z := fun x hx z hz =>
    le_of_lt (lt_trans (lt_trans (htlt x hx) hab) (hdgt z hz))
  have hdlen : (S.drop br).length = S.length - br := List.length_drop _ _
  have heven := hS.2
  by_cases h1 : bl % 2 = 0
  · by_cases h2 : br % 2 = 0
    · rw [if_pos h1, if_pos h2]
      constructor
      · refine sandwich_sorted htp ?_ hdp ?_ ?_ htd
        · simp [le_of_lt hab]
        · intro x hx y hy
          rcases List.mem_cons.mp hy with rfl | hy
          · exact le_of_lt (htlt x hx)
          · simp only [List.mem_singleton] at hy
            subst hy
            exact le_of_lt (lt_trans (htlt x hx) hab)
        · intro y hy z hz
          rcases List.mem_cons.mp hy with rfl | hy
          · exact le_of_lt (lt_trans hab (hdgt z hz))
          · simp only [List.mem_singleton] at hy
            subst hy
            exact le_of_lt (hdgt z hz)
      · simp only [List.length_append, hlen_take, hdlen, List.length_cons,
          List.length_nil]
        omega
    · rw [if_pos h1, if_neg h2]
      constructor
      · refine sandwich_sorted htp ?_ hdp ?_ ?_ htd
        · simp
        · intro x hx y hy
          simp only [List.mem_singleton] at hy
          subst hy
          exact le_of_lt (htlt x hx)
        · intro y hy z hz
          simp only [List.mem_singleton] at hy
          subst hy
          exact le_of_lt (lt_trans hab (hdgt z hz))
      · simp only [List.length_append, hlen_take, hdlen, List.length_cons,
          List.length_nil]
        omega
  · by_cases h2 : br % 2 = 0
    · rw [if_neg h1, if_pos h2]
      constructor
      · refine sandwich_sorted htp ?_ hdp ?_ ?_ htd
        · simp
        · intro x hx y hy
          simp only [List.mem_singleton] at hy
          subst hy
          exact le_of_lt (lt_trans (htlt x hx) hab)
        · intro y hy z hz
          simp only [List.mem_singleton] at hy
          subst hy
          exact le_of_lt (hdgt z hz)
      · simp only [List.length_append, hlen_take, hdlen, List.length_cons,
          List.length_nil]
        omega
    · rw [if_neg h1, if_neg h2]
      constructor
      · rw [List.pairwise_append]
        exact ⟨htp, hdp, htd⟩
      · simp only [List.length_append, hlen_take, hdlen]
        omega

/-! ## The union loop and `tis_union` -/

lemma valid_remove_of_sorted {l : TIS} (hs : l.Pairwise (· ≤ ·))
    (he : l.length % 2 = 0) : Valid (remove_empty_sets l) :=
  ⟨remove_pairwise l hs, by rw [length_remove_parity]; exact he⟩

lemma union_loop_spec : ∀ (other S : TIS), Valid S → Valid other →
    Valid (union_loop S other) ∧
      ∀ t : ℚ, (covers (union_loop S other) t ↔ covers S t ∨ covers other t)
  | [], S, hS, _ => by
    refine ⟨hS, fun t => ?_⟩
    simp [union_loop, covers_nil]
  | [x], S, hS, hother => absurd hother.2 (by simp)
  | a :: b :: rest, S, hS, hother => by
    rcases hother.tail2 with ⟨hrest, hab, hb⟩
    have hsp := splice_union_sorted hS hab
    have hS' : Valid (remove_empty_sets (splice_union S a b)) :=
      valid_remove_of_sorted hsp.1 hsp.2
    have IH := union_loop_spec rest (remove_empty_sets (splice_union S a b))
      hS' hrest
    rw [union_loop]
    refine ⟨IH.1, fun t => ?_⟩
    rw [IH.2 t, covers_remove, covers_splice_union hS hab,
      covers_cons_cons hab hb]
    tauto

lemma tis_union_spec {A B : TIS} (hA : Valid A) (hB : Valid B) :
    Valid (tis_union A B) ∧
      ∀ t : ℚ, (covers (tis_union A B) t ↔ covers A t ∨ covers B t) := by
  unfold tis_union
  by_cases hBe : B.length = 0
  · rw [if_pos hBe]
    have hB0 : B = [] := List.length_eq_zero.mp hBe
    subst hB0
    unfold tis_clone
    rw [remove_eq_self A hA.1]
    exact ⟨hA, fun t => by simp [covers_nil]⟩
  · rw [if_neg hBe]
    by_cases hAe : A.length = 0
    · rw [if_pos hAe]
      have hA0 : A = [] := List.length_eq_zero.mp hAe
      subst hA0
      unfold tis_clone
      rw [remove_eq_self B hB.1]
      exact ⟨hB, fun t => by simp [covers_nil]⟩
    · rw [if_neg hAe]
      exact union_loop_spec B A hA hB

lemma mem_splice_union {S : TIS} {a b x : ℚ} (hx : x ∈ splice_union S a b) :
    x ∈ S ∨ x = a ∨ x = b := by
  simp only [splice_union] at hx
  split_ifs at hx <;>
    simp only [List.mem_append, List.mem_cons, List.mem_singleton,
      List.not_mem_nil, or_false] at hx
  · rcases hx with (hx | hx | hx) | hx
    · exact Or.inl ((List.take_sublist _ _).mem hx)
    · exact Or.inr (Or.inl hx)
    · exact Or.inr (Or.inr hx)
    · exact Or.inl ((List.drop_sublist _ _).mem hx)
  · rcases hx with (hx | hx) | hx
    · exact Or.inl ((List.take_sublist _ _).mem hx)
    · exact Or.inr (Or.inl hx)
    · exact Or.inl ((List.drop_sublist _ _).mem hx)
  · rcases hx with (hx | hx) | hx
    · exact Or.inl ((List.take_sublist _ _).mem hx)
    · exact Or.inr (Or.inr hx)
    · exact Or.inl ((List.drop_sublist _ _).mem hx)
  · rcases hx with hx | hx
    · exact Or.inl ((List.take_sublist _ _).mem hx)
    · exact Or.inl ((List.drop_sublist _ _).mem hx)

lemma mem_union_loop : ∀ (other S : TIS) (x : ℚ),
    x ∈ union_loop S other → x ∈ S ∨ x ∈ other
  | [], S, x, hx => by
    simp only [union_loop] at hx
    exact Or.inl hx
  | [y], S, x, hx => by
    simp only [union_loop] at hx
    exact Or.inl hx
  | a :: b :: rest, S, x, hx => by
    rw [union_loop] at hx
    rcases mem_union_loop rest _ x hx with h | h
    · rcases mem_splice_union (mem_remove h) with h' | h' | h'
      · exact Or.inl h'
      · subst h'
        exact Or.inr (List.mem_cons_self _ _)
      · subst h'
        exact Or.inr (List.mem_cons_of_mem _ (List.mem_cons_self _ _))
    · exact Or.inr (List.mem_cons_of_mem _ (List.mem_cons_of_mem _ h))

lemma mem_tis_union {A B : TIS} {x : ℚ} (hx : x ∈ tis_union A B) :
    x ∈ A ∨ x ∈ B := by
  unfold tis_union at hx
  split_ifs at hx
  · exact Or.inl (mem_remove hx)
  · exact Or.inr (mem_remove hx)
  · exact mem_union_loop B A x hx

/-! ## Canonicity: a valid endpoint list is determined by its coverage -/

lemma head_le_all {x : ℚ} {tl : TIS} (hp : (x :: tl).Pairwise (· < ·)) :
    ∀ y ∈ x :: tl, x ≤ y := by
  intro y hy
  rcases List.mem_cons.mp hy with rfl | hy
  · exact le_refl _
  · exact le_of_lt ((List.pairwise_cons.mp hp).1 y hy)

lemma covers_ext : ∀ A B : TIS, Valid A → Valid B →
    (∀ t : ℚ, covers A t ↔ covers B t) → A = B
  | [], [], _, _, _ => rfl
  | [], b :: B, _, hB, h =>
    absurd ((h b).mpr (covers_first hB)) (covers_nil b)
  | a :: A, [], hA, _, h =>
    absurd ((h a).mp (covers_first hA)) (covers_nil a)
  | [a], _ :: _, hA, _, _ => absurd hA.2 (by simp)
  | _ :: _ :: _, [b], _, hB, _ => absurd hB.2 (by simp)
  | a :: a2 :: A, b :: b2 :: B, hA, hB, h => by
    rcases hA.tail2 with ⟨hA', haa2, hA2min⟩
    rcases hB.tail2 with ⟨hB', hbb2, hB2min⟩
    have hab : a = b := by
      by_contra hne
      rcases lt_or_gt_of_ne hne with hlt | hlt
      · have h1 : covers (a :: a2 :: A) a := covers_first hA
        have h2 : ¬ covers (b :: b2 :: B) a := by
          have hz : cnt (b :: b2 :: B) a = 0 :=
            cnt_all_gt (fun x hx => lt_of_lt_of_le hlt (head_le_all hB.1 x hx))
          unfold covers
          rw [hz]
          omega
        exact h2 ((h a).mp h1)
      · have h1 : covers (b :: b2 :: B) b := covers_first hB
        have h2 : ¬ covers (a :: a2 :: A) b := by
          have hz : cnt (a :: a2 :: A) b = 0 :=
            cnt_all_gt (fun x hx => lt_of_lt_of_le hlt (head_le_all hA.1 x hx))
          unfold covers
          rw [hz]
          omega
        exact h2 ((h b).mpr h1)
    subst hab
    have ha2b2 : a2 = b2 := by
      by_contra hne
      rcases lt_or_gt_of_ne hne with hlt | hlt
      · have hBa2 : covers (a :: b2 :: B) a2 := by
          unfold covers
          rw [cnt_cons, cnt_cons, if_pos (le_of_lt haa2),
            if_neg (not_le.mpr hlt),
            cnt_all_gt (fun z hz => lt_trans hlt (hB2min z hz))]
        have hAa2 : ¬ covers (a :: a2 :: A) a2 := by
          unfold covers
          rw [cnt_cons, cnt_cons, if_pos (le_of_lt haa2), if_pos (le_refl a2),
            cnt_all_gt (fun z hz => hA2min z hz)]
          omega
        exact hAa2 ((h a2).mpr hBa2)
      · have hAb2 : covers (a :: a2 :: A) b2 := by
          unfold covers
          rw [cnt_cons, cnt_cons, if_pos (le_of_lt hbb2),
            if_neg (not_le.mpr hlt),
            cnt_all_gt (fun z hz => lt_trans hlt (hA2min z hz))]
        have hBb2 : ¬ covers (a :: b2 :: B) b2 := by
          unfold covers
          rw [cnt_cons, cnt_cons, if_pos (le_of_lt hbb2), if_pos (le_refl b2),
            cnt_all_gt (fun z hz => hB2min z hz)]
          omega
        exact hBb2 ((h b2).mp hAb2)
    subst ha2b2
    have htails : ∀ t : ℚ, covers A t ↔ covers B t := by
      intro t
      rcases lt_or_le t a2 with hlt | hge
      · have hzA : cnt A t = 0 :=
          cnt_all_gt (fun z hz => lt_trans hlt (hA2min z hz))
        have hzB : cnt B t = 0 :=
          cnt_all_gt (fun z hz => lt_trans hlt (hB2min z hz))
        unfold covers
        rw [hzA, hzB]
      · have hht := h t
        unfold covers at hht ⊢
        rw [cnt_cons, cnt_cons, cnt_cons, cnt_cons, if_pos hge,
          if_pos (le_trans (le_of_lt haa2) hge)] at hht
        omega
    rw [covers_ext A B hA' hB' htails]

/-! ## Intersection -/

lemma Valid_nil : Valid ([] : TIS) := ⟨List.Pairwise.nil, rfl⟩

lemma slice_sublist (l : TIS) (i j : ℕ) : (slice l i j).Sublist l :=
  (List.drop_sublist _ _).trans (List.take_sublist _ _)

lemma covers_append_or {l1 l2 : TIS} {t : ℚ}
    (hdisj : ¬ covers l1 t ∨ ¬ covers l2 t) :
    covers (l1 ++ l2) t ↔ (covers l1 t ∨ covers l2 t) := by
  unfold covers at *
  rw [cnt_append]
  omega

lemma inter_piece_props {S : TIS} (hS : Valid S) {a b : ℚ} (hab : a < b) :
    (∀ x ∈ inter_piece S a b, a ≤ x ∧ x ≤ b) ∧
    (inter_piece S a b).Pairwise (· ≤ ·) ∧
    (inter_piece S a b).length % 2 = 0 := by
  have hSle : S.Pairwise (· ≤ ·) := hS.1.imp le_of_lt
  simp only [inter_piece]
  set bl := bisect_left S a with hbldef
  set br := bisect_right S b with hbrdef
  have hblbr : bl ≤ br := bl_le_br S (le_of_lt hab)
  have hbrlen : br ≤ S.length := br_le_length S b
  have hslice_len : (slice S bl br).length = br - bl := slice_length hblbr hbrlen
  have hsm : ∀ x ∈ slice S bl br, a ≤ x ∧ x ≤ b := fun x hx =>
    ⟨drop_bl_ge hSle a x (mem_slice_mem_drop hx),
     take_br_le hSle b x (mem_slice_mem_take hx)⟩
  have hsp : (slice S bl br).Pairwise (· ≤ ·) :=
    List.Pairwise.sublist (slice_sublist S bl br) hSle
  split_ifs with h1 h2 h2
  · exact ⟨hsm, hsp, by omega⟩
  · refine ⟨?_, ?_, ?_⟩
    · intro x hx
      rcases List.mem_append.mp hx with hx | hx
      · exact hsm x hx
      · simp only [List.mem_singleton] at hx
        subst hx
        exact ⟨le_of_lt hab, le_refl _⟩
    · rw [List.pairwise_append]
      refine ⟨hsp, by simp, ?_⟩
      intro x hx y hy
      simp only [List.mem_singleton] at hy
      subst hy
      exact (hsm x hx).2
    · simp only [List.length_append, hslice_len, List.length_cons,
        List.length_nil]
      omega
  · refine ⟨?_, ?_, ?_⟩
    · intro x hx
      rcases List.mem_append.mp hx with hx | hx
      · simp only [List.mem_singleton] at hx
        subst hx
        exact ⟨le_refl _, le_of_lt hab⟩
      · exact hsm x hx
    · simp only [List.singleton_append]
      rw [List.pairwise_cons]
      exact ⟨fun y hy => (hsm y hy).1, hsp⟩
    · simp only [List.length_append, hslice_len, List.length_cons,
        List.length_nil]
      omega
  · refine ⟨?_, ?_, ?_⟩
    · intro x hx
      rcases List.mem_append.mp hx with hx | hx
      · rcases List.mem_append.mp hx with hx | hx
        · simp only [List.mem_singleton] at hx
          subst hx
          exact ⟨le_refl _, le_of_lt hab⟩
        · exact hsm x hx
      · simp only [List.mem_singleton] at hx
        subst hx
        exact ⟨le_of_lt hab, le_refl _⟩
    · rw [List.pairwise_append]
      refine ⟨?_, by simp, ?_⟩
      · simp only [List.singleton_append]
        rw [List.pairwise_cons]
        exact ⟨fun y hy => (hsm y hy).1, hsp⟩
      · intro x hx y hy
        simp only [List.mem_singleton] at hy
        subst hy
        rcases List.mem_append.mp hx with hx | hx
        · simp only [List.mem_singleton] at hx
          subst hx
          exact le_of_lt hab
        · exact (hsm x hx).2
    · simp only [List.length_append, hslice_len, List.length_cons,
        List.length_nil]
      omega

lemma covers_inter_piece {S : TIS} (hS : Valid S) {a b : ℚ} (hab : a < b)
    (t : ℚ) :
    covers (inter_piece S a b) t ↔ covers S t ∧ (a ≤ t ∧ t < b) := by
  have hSle : S.Pairwise (· ≤ ·) := hS.1.imp le_of_lt
  unfold covers
  simp only [inter_piece]
  set bl := bisect_left S a with hbldef
  set br := bisect_right S b with hbrdef
  have hblbr : bl ≤ br := bl_le_br S (le_of_lt hab)
  have hbrlen : br ≤ S.length := br_le_length S b
  have hbllen : bl ≤ S.length := bl_le_length S a
  have hlen_take : (S.take bl).length = bl := length_take_of_le hbllen
  have hslice_len : (slice S bl br).length = br - bl := slice_length hblbr hbrlen
  have hdecomp : S = S.take bl ++ slice S bl br ++ S.drop br :=
    decomp_three (l := S) hblbr
  have hcntS : cnt S t = cnt (S.take bl) t + cnt (slice S bl br) t
      + cnt (S.drop br) t := by
    conv_lhs => rw [hdecomp]
    rw [cnt_append, cnt_append]
  rcases lt_or_le t a with hta | hta
  · -- region t < a: the piece lies at or above a
    have hsl : cnt (slice S bl br) t = 0 :=
      cnt_all_gt (fun x hx =>
        lt_of_lt_of_le hta (drop_bl_ge hSle a x (mem_slice_mem_drop hx)))
    have hna : ¬ (a ≤ t) := not_le.mpr hta
    have hnb : ¬ (b ≤ t) := not_le.mpr (lt_trans hta hab)
    refine iff_of_false ?_ (fun hc => absurd hc.2.1 hna)
    split_ifs with h1 h2 h2
    · rw [hsl]
      omega
    · rw [cnt_append, cnt_singleton, if_neg hnb, hsl]
      omega
    · rw [cnt_append, cnt_singleton, if_neg hna, hsl]
      omega
    · rw [cnt_append, cnt_append, cnt_singleton, cnt_singleton, if_neg hna,
        if_neg hnb, hsl]
      omega
  · rcases lt_or_le t b with htb | htb
    · -- region a ≤ t < b
      have htake : cnt (S.take bl) t = bl := by
        rw [cnt_all_le (fun x hx =>
          le_of_lt (lt_of_lt_of_le (take_bl_lt hSle a x hx) hta)), hlen_take]
      have hdr : cnt (S.drop br) t = 0 :=
        cnt_all_gt (fun x hx => lt_trans htb (drop_br_gt hSle b x hx))
      have hsv : bl + cnt (slice S bl br) t = cnt S t := by
        rw [hcntS, htake, hdr]
        omega
      have hnb : ¬ (b ≤ t) := not_le.mpr htb
      rw [and_iff_left (⟨hta, htb⟩ : a ≤ t ∧ t < b)]
      split_ifs with h1 h2 h2
      · omega
      · rw [cnt_append, cnt_singleton, if_neg hnb]
        omega
      · rw [cnt_append, cnt_singleton, if_pos hta]
        omega
      · rw [cnt_append, cnt_append, cnt_singleton, cnt_singleton, if_pos hta,
          if_neg hnb]
        omega
    · -- region b ≤ t: the piece has an even count of elements at or below t
      have ha' : a ≤ t := le_trans (le_of_lt hab) htb
      have hsl : cnt (slice S bl br) t = br - bl := by
        rw [cnt_all_le (fun x hx =>
          le_trans (take_br_le hSle b x (mem_slice_mem_take hx)) htb),
          hslice_len]
      refine iff_of_false ?_ (fun hc => absurd hc.2.2 (not_lt.mpr htb))
      split_ifs with h1 h2 h2
      · rw [hsl]
        omega
      · rw [cnt_append, cnt_singleton, if_pos htb, hsl]
        omega
      · rw [cnt_append, cnt_singleton, if_pos ha', hsl]
        omega
      · rw [cnt_append, cnt_append, cnt_singleton, cnt_singleton, if_pos ha',
          if_pos htb, hsl]
        omega

lemma inter_loop_spec (S : TIS) (hS : Valid S) :
    ∀ (other acc : TIS) (β : ℚ),
      Valid acc → (∀ x ∈ acc, x ≤ β) →
      Valid other → (∀ y ∈ other, β < y) →
      Valid (inter_loop S acc other) ∧
        ∀ t : ℚ, (covers (inter_loop S acc other) t ↔
          covers acc t ∨ (covers S t ∧ covers other t))
  | [], acc, β, hacc, _, _, _ => by
    refine ⟨hacc, fun t => ?_⟩
    simp [inter_loop, covers_nil]
  | [x], acc, β, hacc, _, hother, _ => absurd hother.2 (by simp)
  | a :: b :: rest, acc, β, hacc, haccβ, hother, hβ => by
    rcases hother.tail2 with ⟨hrest, hab, hbrest⟩
    have hβa : β < a := hβ a (List.mem_cons_self _ _)
    rcases inter_piece_props hS hab with ⟨hpm, hpp, hpe⟩
    have happ_sorted : (acc ++ inter_piece S a b).Pairwise (· ≤ ·) := by
      rw [List.pairwise_append]
      exact ⟨hacc.1.imp le_of_lt, hpp, fun x hx y hy =>
        le_trans (haccβ x hx)
          (le_trans (le_of_lt hβa) (hpm y hy).1)⟩
    have happ_even : (acc ++ inter_piece S a b).length % 2 = 0 := by
      rw [List.length_append]
      have := hacc.2
      omega
    have hacc' : Valid (remove_empty_sets (acc ++ inter_piece S a b)) :=
      valid_remove_of_sorted happ_sorted happ_even
    have haccb' : ∀ x ∈ remove_empty_sets (acc ++ inter_piece S a b), x ≤ b := by
      intro x hx
      rcases List.mem_append.mp (mem_remove hx) with hx | hx
      · exact le_trans (haccβ x hx) (le_of_lt (lt_trans hβa hab))
      · exact (hpm x hx).2
    have IH := inter_loop_spec S hS rest
      (remove_empty_sets (acc ++ inter_piece S a b)) b hacc' haccb' hrest
      hbrest
    rw [inter_loop]
    refine ⟨IH.1, fun t => ?_⟩
    have hdisj : ¬ covers acc t ∨ ¬ covers (inter_piece S a b) t := by
      rcases lt_or_le t a with hta | hta
      · refine Or.inr ?_
        unfold covers
        rw [cnt_all_gt (fun x hx => lt_of_lt_of_le hta (hpm x hx).1)]
        omega
      · refine Or.inl ?_
        unfold covers
        rw [cnt_all_le (fun x hx =>
          le_trans (haccβ x hx) (le_trans (le_of_lt hβa) hta))]
        have := hacc.2
        omega
    rw [IH.2 t, covers_remove, covers_append_or hdisj,
      covers_inter_piece hS hab, covers_cons_cons hab hbrest]
    tauto

lemma intersection_spec {A B : TIS} (hA : Valid A) (hB : Valid B) :
    Valid (intersection A B) ∧
      ∀ t : ℚ, (covers (intersection A B) t ↔ covers A t ∧ covers B t) := by
  unfold intersection
  by_cases h : B.length = 0 ∨ A.length = 0
  · rw [if_pos h]
    refine ⟨Valid_nil, fun t => ?_⟩
    rcases h with h | h
    · have : B = [] := List.length_eq_zero.mp h
      subst this
      simp [covers_nil]
    · have : A = [] := List.length_eq_zero.mp h
      subst this
      simp [covers_nil]
  · rw [if_neg h]
    push_neg at h
    match hBm : B with
    | b1 :: B' =>
      have hmin : ∀ y ∈ b1 :: B', b1 - 1 < y := fun y hy =>
        lt_of_lt_of_le (by linarith) (head_le_all hB.1 y hy)
      have := inter_loop_spec A hA (b1 :: B') [] (b1 - 1) Valid_nil
        (by simp) hB hmin
      refine ⟨this.1, fun t => ?_⟩
      rw [this.2 t]
      simp [covers_nil]
    | [] => exact absurd rfl h.1

/-! ## Complement -/

lemma comp_piece_props {S : TIS} (hS : Valid S) {a b : ℚ} (hab : a < b) :
    (∀ x ∈ comp_piece S a b, a ≤ x ∧ x ≤ b) ∧
    (comp_piece S a b).Pairwise (· ≤ ·) ∧
    (comp_piece S a b).length % 2 = 0 := by
  have hSle : S.Pairwise (· ≤ ·) := hS.1.imp le_of_lt
  simp only [comp_piece]
  set bl := bisect_left S a with hbldef
  set br := bisect_right S b with hbrdef
  have hblbr : bl ≤ br := bl_le_br S (le_of_lt hab)
  have hbrlen : br ≤ S.length := br_le_length S b
  have hslice_len : (slice S bl br).length = br - bl := slice_length hblbr hbrlen
  have hsm : ∀ x ∈ slice S bl br, a ≤ x ∧ x ≤ b := fun x hx =>
    ⟨drop_bl_ge hSle a x (mem_slice_mem_drop hx),
     take_br_le hSle b x (mem_slice_mem_take hx)⟩
  have hsp : (slice S bl br).Pairwise (· ≤ ·) :=
    List.Pairwise.sublist (slice_sublist S bl br) hSle
  split_ifs with h1 h2 h2
  · refine ⟨?_, ?_, ?_⟩
    · intro x hx
      rcases List.mem_append.mp hx with hx | hx
      · rcases List.mem_append.mp hx with hx | hx
        · simp only [List.mem_singleton] at hx
          subst hx
          exact ⟨le_refl _, le_of_lt hab⟩
        · exact hsm x hx
      · simp only [List.mem_singleton] at hx
        subst hx
        exact ⟨le_of_lt hab, le_refl _⟩
    · rw [List.pairwise_append]
      refine ⟨?_, by simp, ?_⟩
      · simp only [List.singleton_append]
        rw [List.pairwise_cons]
        exact ⟨fun y hy => (hsm y hy).1, hsp⟩
      · intro x hx y hy
        simp only [List.mem_singleton] at hy
        subst hy
        rcases List.mem_append.mp hx with hx | hx
        · simp only [List.mem_singleton] at hx
          subst hx
          exact le_of_lt hab
        · exact (hsm x hx).2
    · simp only [List.length_append, hslice_len, List.length_cons,
        List.length_nil]
      omega
  · refine ⟨?_, ?_, ?_⟩
    · intro x hx
      rcases List.mem_append.mp hx with hx | hx
      · simp only [List.mem_singleton] at hx
        subst hx
        exact ⟨le_refl _, le_of_lt hab⟩
      · exact hsm x hx
    · simp only [List.singleton_append]
      rw [List.pairwise_cons]
      exact ⟨fun y hy => (hsm y hy).1, hsp⟩
    · simp only [List.length_append, hslice_len, List.length_cons,
        List.length_nil]
      omega
  · refine ⟨?_, ?_, ?_⟩
    · intro x hx
      rcases List.mem_append.mp hx with hx | hx
      · exact hsm x hx
      · simp only [List.mem_singleton] at hx
        subst hx
        exact ⟨le_of_lt hab, le_refl _⟩
    · rw [List.pairwise_append]
      refine ⟨hsp, by simp, ?_⟩
      intro x hx y hy
      simp only [List.mem_singleton] at hy
      subst hy
      exact (hsm x hx).2
    · simp only [List.length_append, hslice_len, List.length_cons,
        List.length_nil]
      omega
  · exact ⟨hsm, hsp, by omega⟩

lemma covers_comp_piece {S : TIS} (hS : Valid S) {a b : ℚ} (hab : a < b)
    (t : ℚ) :
    covers (comp_piece S a b) t ↔ (a ≤ t ∧ t < b) ∧ ¬ covers S t := by
  have hSle : S.Pairwise (· ≤ ·) := hS.1.imp le_of_lt
  unfold covers
  simp only [comp_piece]
  set bl := bisect_left S a with hbldef
  set br := bisect_right S b with hbrdef
  have hblbr : bl ≤ br := bl_le_br S (le_of_lt hab)
  have hbrlen : br ≤ S.length := br_le_length S b
  have hbllen : bl ≤ S.length := bl_le_length S a
  have hlen_take : (S.take bl).length = bl := length_take_of_le hbllen
  have hslice_len : (slice S bl br).length = br - bl := slice_length hblbr hbrlen
  have hdecomp : S = S.take bl ++ slice S bl br ++ S.drop br :=
    decomp_three (l := S) hblbr
  have hcntS : cnt S t = cnt (S.take bl) t + cnt (slice S bl br) t
      + cnt (S.drop br) t := by
    conv_lhs => rw [hdecomp]
    rw [cnt_append, cnt_append]
  rcases lt_or_le t a with hta | hta
  · -- region t < a
    have hsl : cnt (slice S bl br) t = 0 :=
      cnt_all_gt (fun x hx =>
        lt_of_lt_of_le hta (drop_bl_ge hSle a x (mem_slice_mem_drop hx)))
    have hna : ¬ (a ≤ t) := not_le.mpr hta
    have hnb : ¬ (b ≤ t) := not_le.mpr (lt_trans hta hab)
    refine iff_of_false ?_ (fun hc => absurd hc.1.1 hna)
    split_ifs with h1 h2 h2
    · rw [cnt_append, cnt_append, cnt_singleton, cnt_singleton, if_neg hna,
        if_neg hnb, hsl]
      omega
    · rw [cnt_append, cnt_singleton, if_neg hna, hsl]
      omega
    · rw [cnt_append, cnt_singleton, if_neg hnb, hsl]
      omega
    · rw [hsl]
      omega
  · rcases lt_or_le t b with htb | htb
    · -- region a ≤ t < b: membership in the complement is the negation
      have htake : cnt (S.take bl) t = bl := by
        rw [cnt_all_le (fun x hx =>
          le_of_lt (lt_of_lt_of_le (take_bl_lt hSle a x hx) hta)), hlen_take]
      have hdr : cnt (S.drop br) t = 0 :=
        cnt_all_gt (fun x hx => lt_trans htb (drop_br_gt hSle b x hx))
      have hsv : bl + cnt (slice S bl br) t = cnt S t := by
        rw [hcntS, htake, hdr]
        omega
      have hnb : ¬ (b ≤ t) := not_le.mpr htb
      rw [and_iff_right (⟨hta, htb⟩ : a ≤ t ∧ t < b)]
      split_ifs with h1 h2 h2
      · rw [cnt_append, cnt_append, cnt_singleton, cnt_singleton, if_pos hta,
          if_neg hnb]
        omega
      · rw [cnt_append, cnt_singleton, if_pos hta]
        omega
      · rw [cnt_append, cnt_singleton, if_neg hnb]
        omega
      · omega
    · -- region b ≤ t
      have ha' : a ≤ t := le_trans (le_of_lt hab) htb
      have hsl : cnt (slice S bl br) t = br - bl := by
        rw [cnt_all_le (fun x hx =>
          le_trans (take_br_le hSle b x (mem_slice_mem_take hx)) htb),
          hslice_len]
      refine iff_of_false ?_ (fun hc => absurd hc.1.2 (not_lt.mpr htb))
      split_ifs with h1 h2 h2
      · rw [cnt_append, cnt_append, cnt_singleton, cnt_singleton, if_pos ha',
          if_pos htb, hsl]
        omega
      · rw [cnt_append, cnt_singleton, if_pos ha', hsl]
        omega
      · rw [cnt_append, cnt_singleton, if_pos htb, hsl]
        omega
      · rw [hsl]
        omega

lemma comp_loop_spec (S : TIS) (hS : Valid S) :
    ∀ (other acc : TIS) (β : ℚ),
      Valid acc → (∀ x ∈ acc, x ≤ β) →
      Valid other → (∀ y ∈ other, β < y) →
      Valid (comp_loop S acc other) ∧
        ∀ t : ℚ, (covers (comp_loop S acc other) t ↔
          covers acc t ∨ (covers other t ∧ ¬ covers S t))
  | [], acc, β, hacc, _, _, _ => by
    refine ⟨hacc, fun t => ?_⟩
    simp [comp_loop, covers_nil]
  | [x], acc, β, hacc, _, hother, _ => absurd hother.2 (by simp)
  | a :: b :: rest, acc, β, hacc, haccβ, hother, hβ => by
    rcases hother.tail2 with ⟨hrest, hab, hbrest⟩
    have hβa : β < a := hβ a (List.mem_cons_self _ _)
    rcases comp_piece_props hS hab with ⟨hpm, hpp, hpe⟩
    have happ_sorted : (acc ++ comp_piece S a b).Pairwise (· ≤ ·) := by
      rw [List.pairwise_append]
      exact ⟨hacc.1.imp le_of_lt, hpp, fun x hx y hy =>
        le_trans (haccβ x hx)
          (le_trans (le_of_lt hβa) (hpm y hy).1)⟩
    have happ_even : (acc ++ comp_piece S a b).length % 2 = 0 := by
      rw [List.length_append]
      have := hacc.2
      omega
    have hacc' : Valid (remove_empty_sets (acc ++ comp_piece S a b)) :=
      valid_remove_of_sorted happ_sorted happ_even
    have haccb' : ∀ x ∈ remove_empty_sets (acc ++ comp_piece S a b), x ≤ b := by
      intro x hx
      rcases List.mem_append.mp (mem_remove hx) with hx | hx
      · exact le_trans (haccβ x hx) (le_of_lt (lt_trans hβa hab))
      · exact (hpm x hx).2
    have IH := comp_loop_spec S hS rest
      (remove_empty_sets (acc ++ comp_piece S a b)) b hacc' haccb' hrest
      hbrest
    rw [comp_loop]
    refine ⟨IH.1, fun t => ?_⟩
    have hdisj : ¬ covers acc t ∨ ¬ covers (comp_piece S a b) t := by
      rcases lt_or_le t a with hta | hta
      · refine Or.inr ?_
        unfold covers
        rw [cnt_all_gt (fun x hx => lt_of_lt_of_le hta (hpm x hx).1)]
        omega
      · refine Or.inl ?_
        unfold covers
        rw [cnt_all_le (fun x hx =>
          le_trans (haccβ x hx) (le_trans (le_of_lt hβa) hta))]
        have := hacc.2
        omega
    rw [IH.2 t, covers_remove, covers_append_or hdisj,
      covers_comp_piece hS hab, covers_cons_cons hab hbrest]
    tauto

lemma complement_spec {A B : TIS} (hA : Valid A) (hB : Valid B)
    (hsub : tis_union A B = B) :
    ∃ C, complement_with_respect_to A B = .ok C ∧ Valid C ∧
      ∀ t : ℚ, (covers C t ↔ covers B t ∧ ¬ covers A t) := by
  unfold complement_with_respect_to
  rw [if_neg (not_not_intro hsub)]
  by_cases hAe : A.length = 0
  · rw [if_pos hAe]
    have hA0 : A = [] := List.length_eq_zero.mp hAe
    subst hA0
    exact ⟨B, rfl, hB, fun t => by simp [covers_nil]⟩
  · rw [if_neg hAe]
    match hBm : B with
    | [] =>
      exfalso
      have : tis_union A [] = A := by
        simp [tis_union, tis_clone, remove_eq_self A hA.1]
      rw [this] at hsub
      subst hsub
      exact hAe rfl
    | b1 :: B' =>
      have hmin : ∀ y ∈ b1 :: B', b1 - 1 < y := fun y hy =>
        lt_of_lt_of_le (by linarith) (head_le_all hB.1 y hy)
      have hcl := comp_loop_spec A hA (b1 :: B') [] (b1 - 1) Valid_nil
        (by simp) hB hmin
      refine ⟨_, rfl, hcl.1, fun t => ?_⟩
      rw [hcl.2 t]
      simp [covers_nil]

lemma complement_error {A B : TIS} (hne : tis_union A B ≠ B) :
    complement_with_respect_to A B =
      .error "Can only take complement with respect to a superset." := by
  unfold complement_with_respect_to
  rw [if_pos hne]

/-! ## Frame rounding -/

lemma fstart_le (t : ℚ) : find_frame_file_gps_start_time t ≤ t := by
  unfold find_frame_file_gps_start_time
  calc (64:ℚ) * ⌊t / 64⌋ ≤ 64 * (t / 64) :=
        mul_le_mul_of_nonneg_left (Int.floor_le _) (by norm_num)
    _ = t := by ring

lemma le_fend (t : ℚ) : t ≤ find_frame_file_gps_end_time t := by
  unfold find_frame_file_gps_end_time
  calc t = 64 * (t / 64) := by ring
    _ ≤ (64:ℚ) * ⌈t / 64⌉ :=
        mul_le_mul_of_nonneg_left (Int.le_ceil _) (by norm_num)

lemma fstart_is64 (t : ℚ) : is64 (find_frame_file_gps_start_time t) :=
  ⟨⌊t / 64⌋, rfl⟩

lemma fend_is64 (t : ℚ) : is64 (find_frame_file_gps_end_time t) :=
  ⟨⌈t / 64⌉, rfl⟩

lemma fstart_fixed {t : ℚ} (h : is64 t) :
    find_frame_file_gps_start_time t = t := by
  rcases h with ⟨k, rfl⟩
  unfold find_frame_file_gps_start_time
  rw [show (64:ℚ) * (k:ℚ) / 64 = (k:ℚ) by ring, Int.floor_intCast]

lemma fend_fixed {t : ℚ} (h : is64 t) :
    find_frame_file_gps_end_time t = t := by
  rcases h with ⟨k, rfl⟩
  unfold find_frame_file_gps_end_time
  rw [show (64:ℚ) * (k:ℚ) / 64 = (k:ℚ) by ring, Int.ceil_intCast]

lemma rtf_loop_spec : ∀ (l acc : TIS), Valid acc → Valid l →
    Valid (rtf_loop acc l) ∧
      ∀ t : ℚ, (covers (rtf_loop acc l) t ↔ covers acc t ∨ roundedMemb l t)
  | [], acc, hacc, _ => by
    refine ⟨hacc, fun t => ?_⟩
    simp [rtf_loop, roundedMemb]
  | [x], acc, hacc, hl => absurd hl.2 (by simp)
  | s :: e :: rest, acc, hacc, hl => by
    rcases hl.tail2 with ⟨hrest, hse, _⟩
    have hfs : find_frame_file_gps_start_time s <
        find_frame_file_gps_end_time e :=
      lt_of_le_of_lt (fstart_le s) (lt_of_lt_of_le hse (le_fend e))
    have hpv : Valid [find_frame_file_gps_start_time s,
        find_frame_file_gps_end_time e] := by
      refine ⟨?_, by simp⟩
      rw [List.pairwise_cons]
      refine ⟨?_, by simp⟩
      intro y hy
      simp only [List.mem_singleton] at hy
      subst hy
      exact hfs
    have hrm : remove_empty_sets [find_frame_file_gps_start_time s,
        find_frame_file_gps_end_time e] = _ := remove_eq_self _ hpv.1
    rw [rtf_loop, hrm]
    have hu := tis_union_spec hacc hpv
    have IH := rtf_loop_spec rest _ hu.1 hrest
    refine ⟨IH.1, fun t => ?_⟩
    rw [IH.2 t, hu.2 t]
    have hc2 : covers [find_frame_file_gps_start_time s,
        find_frame_file_gps_end_time e] t ↔
        (find_frame_file_gps_start_time s ≤ t ∧
          t < find_frame_file_gps_end_time e) := by
      rw [covers_cons_cons hfs (by simp)]
      simp [covers_nil]
    rw [hc2, roundedMemb]
    tauto

lemma inSet_roundedMemb : ∀ (l : TIS) (t : ℚ), inSet l t → roundedMemb l t
  | [], t, h => by simp [inSet] at h
  | [x], t, h => by simp [inSet] at h
  | s :: e :: rest, t, h => by
    rw [roundedMemb]
    unfold inSet at h
    rcases Bool.or_eq_true_iff.mp h with h1 | h1
    · rcases Bool.and_eq_true_iff.mp h1 with ⟨h2, h3⟩
      exact Or.inl ⟨le_trans (fstart_le s) (of_decide_eq_true h2),
        lt_of_lt_of_le (of_decide_eq_true h3) (le_fend e)⟩
    · exact Or.inr (inSet_roundedMemb rest t h1)

lemma rtf_loop_mem64 : ∀ (l acc : TIS), (∀ x ∈ acc, is64 x) →
    ∀ x ∈ rtf_loop acc l, is64 x
  | [], acc, hacc => by simpa [rtf_loop] using hacc
  | [y], acc, hacc => by simpa [rtf_loop] using hacc
  | s :: e :: rest, acc, hacc => by
    rw [rtf_loop]
    refine rtf_loop_mem64 rest _ ?_
    intro x hx
    rcases mem_tis_union hx with h | h
    · exact hacc x h
    · rcases List.mem_cons.mp (mem_remove h) with rfl | h'
      · exact fstart_is64 s
      · simp only [List.mem_singleton] at h'
        subst h'
        exact fend_is64 e

lemma inSet_cons_cons (s e : ℚ) (rest : TIS) (t : ℚ) :
    inSet (s :: e :: rest) t ↔ ((s ≤ t ∧ t < e) ∨ inSet rest t) := by
  show (_ = true) ↔ _
  rw [inSet, Bool.or_eq_true_iff, Bool.and_eq_true_iff]
  simp [decide_eq_true_eq]

lemma roundedMemb_fixed : ∀ (l : TIS) (t : ℚ), (∀ x ∈ l, is64 x) →
    (roundedMemb l t ↔ inSet l t)
  | [], t, _ => by simp [roundedMemb, inSet]
  | [x], t, _ => by simp [roundedMemb, inSet]
  | s :: e :: rest, t, h64 => by
    rw [roundedMemb]
    have hs : find_frame_file_gps_start_time s = s :=
      fstart_fixed (h64 s (List.mem_cons_self _ _))
    have he : find_frame_file_gps_end_time e = e :=
      fend_fixed (h64 e (List.mem_cons_of_mem _ (List.mem_cons_self _ _)))
    rw [hs, he, roundedMemb_fixed rest t (fun x hx =>
      h64 x (List.mem_cons_of_mem _ (List.mem_cons_of_mem _ hx)))]
    exact (inSet_cons_cons s e rest t).symm

lemma round_to_frame_times_spec {l : TIS} (hl : Valid l) :
    Valid (round_to_frame_times l) ∧
      (∀ t : ℚ, covers (round_to_frame_times l) t ↔ roundedMemb l t) ∧
      (∀ x ∈ round_to_frame_times l, is64 x) := by
  have h := rtf_loop_spec l [] Valid_nil hl
  refine ⟨h.1, fun t => ?_, rtf_loop_mem64 l [] (by simp)⟩
  have := h.2 t
  unfold round_to_frame_times
  rw [this]
  simp [covers_nil]

lemma rtf_fixed {m : TIS} (hm : Valid m) (h64 : ∀ x ∈ m, is64 x) :
    round_to_frame_times m = m := by
  have hs := round_to_frame_times_spec hm
  apply covers_ext _ _ hs.1 hm
  intro t
  rw [hs.2.1 t, roundedMemb_fixed m t h64, covers_iff_inSet m hm t]

lemma tis_init_valid {l : List ℚ} {m : TIS} (h : tis_init l = .ok m) :
    Valid m := by
  unfold tis_init at h
  split_ifs at h with h1 h2
  · injection h with h3
    subst h3
    refine valid_remove_of_sorted ?_ (by omega)
    rw [← List.chain'_iff_pairwise]
    exact h2

/-! ## The claims -/

/-- `float64_max` is `2¹⁰²⁴ - 2⁹⁷¹`, i.e. `(2 - 2⁻⁵²)·2¹⁰²³`. -/
lemma float64_max_eq_pow :
    float64_max = 2 ^ (1024 : ℕ) - 2 ^ (971 : ℕ) := by
  norm_num [float64_max]

/-- Evaluation of the frame-file start-time rounding at 65. -/
lemma eval_fstart_65 : find_frame_file_gps_start_time (65 : ℚ) = 64 := by
  unfold find_frame_file_gps_start_time
  rw [show ⌊(65 : ℚ) / 64⌋ = 1 by rw [Int.floor_eq_iff] <;> norm_num]
  norm_num

/-- Evaluation of the frame-file end-time rounding at 124. -/
lemma eval_fend_124 : find_frame_file_gps_end_time (124 : ℚ) = 128 := by
  unfold find_frame_file_gps_end_time
  rw [show ⌈(124 : ℚ) / 64⌉ = 2 by rw [Int.ceil_eq_iff] <;> norm_num]
  norm_num

set_option maxRecDepth 10000 in
/-- C1: the claim fails on the code, twice over.  (i) `ReportSet.union`
first runs `assert_self_consistent`, whose report loop starts with
`isinstance(r, self.get_report_class())`; `get_report_class` is a
`globals()` lookup inside ReportSet.py, whose module globals bind no report
class, so on the claim's report sets -- disjoint or identical coverage
alike -- `union` raises `KeyError` before any unionability or coverage
check runs: neither the required overlapping-coverage failure nor the
disjoint-union success is reachable.  (ii) Independently, the coverage
test itself (ReportSet.py lines 200-203) is inverted: on operands whose
class name IS bound in the module (`TimeIntervalSet`), so that
`assert_unionable` runs past its class comparison, it raises the
overlapping-coverage error exactly on the DISJOINT windows
`[0,1)`/`[2,3)`, and passes on identical windows. -/
theorem claim_C1_reportset_union_inverted :
    ReportSet.union rs_first rs_second = .error "KeyError: IRIGBReport" ∧
    ReportSet.union rs_first rs_first = .error "KeyError: IRIGBReport" ∧
    ReportSet.assert_unionable rs_tis_a rs_tis_b =
      .error "instances of ReportSet cannot cover overlapping time intervals" ∧
    ReportSet.assert_unionable rs_tis_a rs_tis_a = .ok () := by
  refine ⟨by decide, by decide, by decide, by decide⟩

/-- C2: evaluating `Statistics.union` on two compatible blocks with
`max = [1]`/`[2]` and `min = [1]`/`[2]`: `sum`, `sum_sq` and `num` are added
as claimed, but the `max` and `min` accumulators are ALSO added (giving
`[3]`), not combined by element-wise selection (`[2]` resp. `[1]`) as the
claim states. -/
theorem claim_C2_statistics_union_adds_extrema :
    Statistics.union stats_one stats_two = .ok stats_observed ∧
    stats_observed.sum = [1 + 2] ∧
    stats_observed.max ≠ [max (1 : ℚ) 2] ∧
    stats_observed.min ≠ [min (1 : ℚ) 2] := by
  refine ⟨?_, ?_, ?_, ?_⟩ <;>
    norm_num [Statistics.union, Statistics.assert_self_consistent,
      Statistics.assert_unionable, Statistics.union_raw, stats_one, stats_two,
      stats_observed, geco_version]

/-- C3: unioning a `Statistics` block having `max = min = [0]` with the
freshly constructed default block of the same bitrate does NOT return the
original: because `__union__` adds the `max`/`min` vectors, the default's
`float64` extreme initializers survive into the result. -/
theorem claim_C3_default_not_identity :
    Statistics.union stats_sample (Statistics.init_default 1) =
      .ok { stats_sample with max := [float64_min], min := [float64_max] } ∧
    Statistics.union stats_sample (Statistics.init_default 1) ≠
      .ok stats_sample := by
  refine ⟨?_, ?_⟩ <;>
    norm_num [Statistics.union, Statistics.assert_self_consistent,
      Statistics.assert_unionable, Statistics.union_raw, stats_sample,
      Statistics.init_default, geco_version, float64_min, float64_max]

/-- C4: `[66,69) ∪ [67,72) = [66,72)` and `[66,69) ∩ [67,72) = [67,69)`;
and in general, on valid endpoint lists the parity-based splice computes
the exact pointwise set union and set intersection of the represented
half-open interval unions. -/
theorem claim_C4_union_intersection_exact :
    tis_union [66, 69] [67, 72] = [66, 72] ∧
    intersection [66, 69] [67, 72] = [67, 69] ∧
    ∀ A B : TIS, Valid A → Valid B → ∀ t : ℚ,
      (inSet (tis_union A B) t ↔ inSet A t ∨ inSet B t) ∧
      (inSet (intersection A B) t ↔ inSet A t ∧ inSet B t) := by
  refine ⟨by decide, by decide, ?_⟩
  intro A B hA hB t
  have hu := tis_union_spec hA hB
  have hi := intersection_spec hA hB
  constructor
  · rw [covers_iff_inSet _ hu.1 t, covers_iff_inSet A hA t,
      covers_iff_inSet B hB t, hu.2 t]
  · rw [covers_iff_inSet _ hi.1 t, covers_iff_inSet A hA t,
      covers_iff_inSet B hB t, hi.2 t]

/-- Witness for C4 at concrete valid inputs. -/
theorem claim_C4_witness :
    Valid [(0 : ℚ), 2] ∧ Valid [(1 : ℚ), 3] ∧
    (inSet (tis_union [(0 : ℚ), 2] [(1 : ℚ), 3]) 1 ↔
      inSet [(0 : ℚ), 2] 1 ∨ inSet [(1 : ℚ), 3] 1) :=
  ⟨by decide, by decide,
    (claim_C4_union_intersection_exact.2.2 [(0 : ℚ), 2] [(1 : ℚ), 3]
      (by decide) (by decide) 1).1⟩

/-- C5: `[66,73) \ [67,72) = [66,67) ∪ [72,73)`; for every valid `x`,
`x \ x` is the empty set; for valid `A ⊆ B` (in the code's sense
`A ∪ B = B`) the complement `C = B \ A` satisfies `C ∪ A = B`; and the
complement of a non-superset raises the not-a-superset error. -/
theorem claim_C5_complement_round_trip :
    complement_with_respect_to [67, 72] [66, 73] = .ok [66, 67, 72, 73] ∧
    (∀ x : TIS, Valid x → complement_with_respect_to x x = .ok []) ∧
    (∀ A B : TIS, Valid A → Valid B → tis_union A B = B →
      ∃ C, complement_with_respect_to A B = .ok C ∧ tis_union C A = B) ∧
    (∀ A B : TIS, tis_union A B ≠ B →
      complement_with_respect_to A B =
        .error "Can only take complement with respect to a superset.") := by
  refine ⟨by decide, ?_, ?_, fun A B h => complement_error h⟩
  · intro x hx
    have hxx : tis_union x x = x := by
      apply covers_ext _ _ (tis_union_spec hx hx).1 hx
      intro t
      rw [(tis_union_spec hx hx).2 t]
      tauto
    rcases complement_spec hx hx hxx with ⟨C, hC, hCv, hCc⟩
    rw [hC]
    have hCnil : C = [] := by
      apply covers_ext C [] hCv Valid_nil
      intro t
      exact iff_of_false (fun hc => ((hCc t).mp hc).2 ((hCc t).mp hc).1)
        (covers_nil t)
    rw [hCnil]
  · intro A B hA hB hsub
    rcases complement_spec hA hB hsub with ⟨C, hC, hCv, hCc⟩
    refine ⟨C, hC, ?_⟩
    have hsup : ∀ t : ℚ, covers A t → covers B t := by
      intro t h
      have hiff := (tis_union_spec hA hB).2 t
      rw [hsub] at hiff
      exact hiff.mpr (Or.inl h)
    apply covers_ext _ _ (tis_union_spec hCv hA).1 hB
    intro t
    rw [(tis_union_spec hCv hA).2 t, hCc t]
    constructor
    · rintro (⟨hb, _⟩ | ha)
      · exact hb
      · exact hsup t ha
    · intro hb
      by_cases ha : covers A t
      · exact Or.inr ha
      · exact Or.inl ⟨hb, ha⟩

/-- Witness for C5: the self-complement clause at a concrete valid input. -/
theorem claim_C5_witness :
    Valid [(66 : ℚ), 69] ∧
    complement_with_respect_to [(66 : ℚ), 69] [(66 : ℚ), 69] = .ok [] :=
  ⟨by decide, claim_C5_complement_round_trip.2.1 [(66 : ℚ), 69] (by decide)⟩

/-- C6: `round_to_frame_times` is idempotent on valid interval sets, only
widens (its result covers every instant the input covers), and rounds
`[65,124)` to `[64,128)`. -/
theorem claim_C6_round_to_frame_times :
    (∀ x : TIS, Valid x →
      round_to_frame_times (round_to_frame_times x) =
        round_to_frame_times x) ∧
    (∀ x : TIS, Valid x → ∀ t : ℚ,
      inSet x t → inSet (round_to_frame_times x) t) ∧
    round_to_frame_times [65, 124] = [64, 128] := by
  refine ⟨?_, ?_, ?_⟩
  · intro x hx
    have hs := round_to_frame_times_spec hx
    exact rtf_fixed hs.1 hs.2.2
  · intro x hx t ht
    have hs := round_to_frame_times_spec hx
    rw [covers_iff_inSet _ hs.1 t, hs.2.1 t]
    exact inSet_roundedMemb x t ht
  · norm_num [round_to_frame_times, rtf_loop, eval_fstart_65, eval_fend_124,
      remove_empty_sets, tis_union, tis_clone, union_loop, splice_union,
      bisect_left, bisect_right, List.countP_cons, List.countP_nil,
      decide_eq_true_eq]

/-- Witness for C6: idempotence at a concrete valid input. -/
theorem claim_C6_witness :
    Valid [(65 : ℚ), 124] ∧
    round_to_frame_times (round_to_frame_times [(65 : ℚ), 124]) =
      round_to_frame_times [(65 : ℚ), 124] :=
  ⟨by decide, claim_C6_round_to_frame_times.1 [(65 : ℚ), 124] (by decide)⟩

/-- C7: `ReportSet.union` can never return a `ReportSet`: `__union__`
(ReportSet.py lines 205-211) has no return statement, so every run either
raises -- inside the pre-checks, the initial `ans = self.clone()`, or one
of the `+=` unions -- or returns Python `None`. -/
theorem claim_C7_union_never_returns_reportset (s o : ReportSet) :
    ReportSet.union s o = .ok none ∨
      ∃ e, ReportSet.union s o = .error e := by
  unfold ReportSet.union ReportSet.union_impl
  repeat' first
    | exact Or.inl rfl
    | exact Or.inr ⟨_, rfl⟩
    | split

/-- Witness for C7 at the concrete pair of ReportSets. -/
theorem claim_C7_witness :
    ReportSet.union rs_first rs_second = .ok none ∨
      ∃ e, ReportSet.union rs_first rs_second = .error e :=
  claim_C7_union_never_returns_reportset rs_first rs_second

set_option maxRecDepth 10000 in
/-- C8: dictionary round-tripping through the class-name factory works for
the registered leaf aggregates `Histogram` and `Statistics`, but fails for
the composites: `ReportSet.to_dict` raises `AttributeError` outright
(`TimeIntervalSet`, an old-style `ReportInterface`, has no public
`to_dict`), and the factory in any case holds only `Histogram`,
`Statistics`, `IRIGBReport` and `DuoToneReport` -- neither `ReportSet` nor
`TimeIntervalSet` is ever registered, so the class-tag dispatch of
`from_dict` could not reconstruct them either. -/
theorem claim_C8_round_trip_unregistered :
    ReportSet.to_dict rs_first =
      .error "AttributeError: TimeIntervalSet object has no attribute to_dict" ∧
    ("ReportSet" ∈ factory_registered) = False ∧
    ("TimeIntervalSet" ∈ factory_registered) = False ∧
    from_dict (Histogram.to_dict (Histogram.init_default 1)) =
      .ok (.hist (Histogram.init_default 1)) ∧
    from_dict (Statistics.to_dict (Statistics.init_default 1)) =
      .ok (.stats (Statistics.init_default 1)) := by
  refine ⟨rfl, by decide, by decide, by decide, by decide⟩

/-- C10: the representation invariant -- strictly increasing endpoints in
even count -- holds for every `TimeIntervalSet` produced by the public
constructor, `union`, `intersection`, `complement_with_respect_to`,
`round_to_frame_times`, or `clone` from valid inputs. -/
theorem claim_C10_invariant_preserved :
    (∀ (l : List ℚ) (m : TIS), tis_init l = .ok m → Valid m) ∧
    (∀ A B : TIS, Valid A → Valid B → Valid (tis_union A B)) ∧
    (∀ A B : TIS, Valid A → Valid B → Valid (intersection A B)) ∧
    (∀ A B C : TIS, Valid A → Valid B →
      complement_with_respect_to A B = .ok C → Valid C) ∧
    (∀ l : TIS, Valid l → Valid (round_to_frame_times l)) ∧
    (∀ l : TIS, Valid l → Valid (tis_clone l)) := by
  refine ⟨fun l m h => tis_init_valid h,
    fun A B hA hB => (tis_union_spec hA hB).1,
    fun A B hA hB => (intersection_spec hA hB).1,
    ?_,
    fun l hl => (round_to_frame_times_spec hl).1,
    fun l hl => ⟨remove_pairwise l (hl.1.imp le_of_lt), by
      show (remove_empty_sets l).length % 2 = 0
      rw [length_remove_parity]
      exact hl.2⟩⟩
  intro A B C hA hB hC
  by_cases hsub : tis_union A B = B
  · rcases complement_spec hA hB hsub with ⟨C2, hC2, hCv, _⟩
    rw [hC2] at hC
    injection hC with h
    rw [← h]
    exact hCv
  · rw [complement_error hsub] at hC
    exact absurd hC (by simp)

/-- Witness for C10: the constructor clause at a concrete input. -/
theorem claim_C10_witness :
    tis_init [(0 : ℚ), 1] = .ok [(0 : ℚ), 1] ∧ Valid [(0 : ℚ), 1] := by
  have hinit : tis_init [(0 : ℚ), 1] = .ok [(0 : ℚ), 1] := by
    norm_num [tis_init, List.chain'_cons, List.chain'_singleton,
      remove_empty_sets]
  exact ⟨hinit, claim_C10_invariant_preserved.1 [(0 : ℚ), 1] [(0 : ℚ), 1] hinit⟩

end GecoStat
